import Mathlib

/-! Shallow embedding of the quuote service: the items store and job queue
(`src/lib/items-repo.ts`), the quote type definition and its `normalize`
(`src/types/quote.ts`), the render worker loop (`src/worker.ts`), the feed
publisher (`src/lib/rss.ts`) and the card text-fitting algorithm
(`src/render/quote.tsx`), together with theorems checking the
specification's claims against these definitions.

Machine-level conventions of the embedding:
* SQL `CURRENT_TIMESTAMP` / JS `new Date()` become an explicit `now : Nat`
  argument; `created_at`, `updated_at` and `rendered_at` are naturals (the
  code stores ISO-8601 / `YYYY-MM-DD HH:MM:SS` strings, whose lexicographic
  order agrees with chronological order).
* SQL NULL and absent JS fields are `Option`; fallible steps return
  `Except`/`Option`.
* The single `items` table is a `List ItemRecord` in insertion order;
  SQLite's `BEGIN IMMEDIATE` transactions serialize writers, so every
  store operation is a pure function from store to store.
-/

namespace Quuote

/-- Row of the `items` table, mirroring `ItemRecord` in
`src/lib/items-repo.ts` column for column.  `attributes` holds the JSON
serialization the repo writes with `JSON.stringify`; `tags` is the
nullable TEXT column holding a JSON array. -/
structure ItemRecord where
  id : String
  type : String
  title : Option String
  source_url : Option String
  attributes : String
  tags : Option String
  submitted_by : Option String
  render_status : String
  og_path : Option String
  embed_path : Option String
  markdown_path : Option String
  rendered_at : Option Nat
  created_at : Nat
  updated_at : Nat
  render_failures : Nat
deriving DecidableEq, Repr

/-- The `items` table in table-scan (insertion) order. -/
abbrev Store := List ItemRecord

/-- JSON string escaping as performed by `JSON.stringify` on the common
characters (quote, backslash, newline, tab, carriage return); other
control characters, which the repository never feeds into tag strings,
are kept verbatim in the model. -/
def jsonEscapeChar (c : Char) : List Char :=
  if c = '"' then ['\\', '"']
  else if c = '\\' then ['\\', '\\']
  else if c = '\n' then ['\\', 'n']
  else if c = '\t' then ['\\', 't']
  else if c = '\r' then ['\\', 'r']
  else [c]

/-- Characters of the serialized tag elements, separated by commas:
`"a","b"` for `["a", "b"]`. -/
def serTagsInner : List String → List Char
  | [] => []
  | [t] => '"' :: (t.toList.map jsonEscapeChar).flatten ++ ['"']
  | t :: rest => '"' :: (t.toList.map jsonEscapeChar).flatten ++ ['"']
      ++ (',' :: serTagsInner rest)

/-- `JSON.stringify` of a string array, as used for the `tags` column
(`JSON.stringify(input.payload.tags ?? [])`). -/
def serializeTags (l : List String) : String :=
  String.mk ('[' :: serTagsInner l ++ [']'])

/-- WHERE clause of `takeNextQueuedItem`: `render_status = 'queued'`,
plus `AND type = ?` only when the JS argument is truthy (`if (type)`), so
an absent argument and the empty string add no type clause. -/
def queuedMatch (type? : Option String) (r : ItemRecord) : Bool :=
  r.render_status == "queued" &&
    match type? with
    | some t => t == "" || r.type == t
    | none => true

/-- Result of `ORDER BY created_at ASC LIMIT 1` over a scan: the first
row among those with minimal `created_at` (SQLite breaks the tie by scan
order). -/
def selectOldest : List ItemRecord → Option ItemRecord
  | [] => none
  | r :: rs =>
    match selectOldest rs with
    | none => some r
    | some m => if r.created_at ≤ m.created_at then some r else some m

/-- `takeNextQueuedItem` (`src/lib/items-repo.ts`): inside one
`BEGIN IMMEDIATE` transaction, select the oldest queued row (optionally
filtered by type), flip it to `rendering`, commit, and return the row
object read *before* the UPDATE.  Returns `none` and leaves the table
untouched when no row qualifies. -/
def takeNextQueuedItem (now : Nat) (type? : Option String) (s : Store) :
    Option ItemRecord × Store :=
  match selectOldest (s.filter (queuedMatch type?)) with
  | none => (none, s)
  | some row =>
    (some row,
      s.map fun r =>
        if r.id == row.id then
          { r with render_status := "rendering", updated_at := now }
        else r)

/-- SQL `COALESCE(?, column)` for a nullable column: binding NULL keeps
the current value.  Note that the repo computes every bound parameter as
`input.field ?? null`, so a JS `undefined` (field omitted) and an explicit
`null` both reach SQL as NULL and are indistinguishable here. -/
def coalesceParam {α : Type} (p : Option α) (old : Option α) : Option α :=
  match p with
  | some v => some v
  | none => old

/-- Payload of an update as the store receives it: `title` and
`sourceUrl` are written directly, `attributes` arrives as the JSON string
`JSON.stringify(payload.attributes ?? {})`, and `tags` is serialized by
the repo itself via `JSON.stringify(payload.tags ?? [])`. -/
structure StorePayload where
  title : String
  sourceUrl : Option String
  attributesJson : String
  tags : List String
deriving DecidableEq, Repr

/-- Argument record of `updateItem`, mirroring `UpdateItemInput`.  Fields
typed `T | null | undefined` in TS collapse to `Option` (see
`coalesceParam`). -/
structure UpdateItemInput where
  id : String
  type : String
  payload : StorePayload
  submittedBy : Option String
  renderStatus : Option String
  ogPath : Option String
  embedPath : Option String
  markdownPath : Option String
  renderedAt : Option Nat
  renderFailures : Option Nat
deriving DecidableEq, Repr

/-- `updateItem` (`src/lib/items-repo.ts`): one UPDATE over the rows with
`id = ? AND type = ?`, setting title/source_url/attributes/tags directly
and the render bookkeeping columns through `COALESCE(?, column)`. -/
def updateItem (now : Nat) (input : UpdateItemInput) (s : Store) : Store :=
  s.map fun r =>
    if r.id == input.id && r.type == input.type then
      { r with
        title := some input.payload.title
        source_url := input.payload.sourceUrl
        attributes := input.payload.attributesJson
        tags := some (serializeTags input.payload.tags)
        submitted_by := coalesceParam input.submittedBy r.submitted_by
        render_status := (input.renderStatus).getD r.render_status
        og_path := coalesceParam input.ogPath r.og_path
        embed_path := coalesceParam input.embedPath r.embed_path
        markdown_path := coalesceParam input.markdownPath r.markdown_path
        rendered_at := coalesceParam input.renderedAt r.rendered_at
        render_failures := (input.renderFailures).getD r.render_failures
        updated_at := now }
    else r

/-- The exact `updateItem` call issued by the `PATCH /items/<id>` handler
in `src/api.ts` after a successful re-normalization: `renderStatus:
"queued"`, `ogPath: null`, `embedPath: null`, `markdownPath: null`,
`renderedAt: null`, `renderFailures: 0`.  The three explicit `null` path
arguments become `none` because the repo rebinds them as
`input.ogPath ?? null` before COALESCE. -/
def patchItemStore (now : Nat) (id ty : String) (payload : StorePayload)
    (submittedBy : Option String) (s : Store) : Store :=
  updateItem now
    { id := id, type := ty, payload := payload
      submittedBy := submittedBy
      renderStatus := some "queued"
      ogPath := none, embedPath := none, markdownPath := none
      renderedAt := none
      renderFailures := some 0 } s

/-- `markRenderFailure`: sets `failed`, bumps `render_failures` by one and
touches `updated_at`; no other column appears in its SET list. -/
def markRenderFailure (now : Nat) (id : String) (s : Store) : Store :=
  s.map fun r =>
    if r.id == id then
      { r with
        render_status := "failed",
        render_failures := r.render_failures + 1,
        updated_at := now }
    else r

/-- `markRenderResult`: sets `rendered`, stores the three artifact paths
and the render timestamp, and resets the failure counter. -/
def markRenderResult (now : Nat) (id : String)
    (ogPath embedPath markdownPath : String) (renderedAt : Nat) (s : Store) : Store :=
  s.map fun r =>
    if r.id == id then
      { r with
        render_status := "rendered",
        og_path := some ogPath,
        embed_path := some embedPath,
        markdown_path := some markdownPath,
        rendered_at := some renderedAt,
        render_failures := 0,
        updated_at := now }
    else r

/-- `buildAssetPaths`: type-partitioned, id-named artifact locations. -/
def buildAssetPaths (ty id dataRoot : String) : String × String × String :=
  (dataRoot ++ "/og/" ++ ty ++ "/" ++ id ++ ".jpg",
   dataRoot ++ "/embed/" ++ ty ++ "/" ++ id ++ ".html",
   dataRoot ++ "/markdown/" ++ ty ++ "/" ++ id ++ ".md")

/-- Worker `processQueuedItem` (`src/worker.ts`) with its effects made
explicit.  `getTypeOk ty` says whether `getType(ty)` succeeds — it throws
on an unregistered type and is invoked *before* the try/catch.
`renderOk` says whether the guarded block up to `markRenderResult`
(renderItem, renderMarkdown, the three artifact writes) succeeds; when it
is false the catch branch runs `markRenderFailure`.  An `Except.error`
result is an exception escaping `processQueuedItem`, caught only by the
outer `workLoop`. -/
def processQueuedItem (now : Nat) (getTypeOk : String → Bool) (renderOk : Bool)
    (dataRoot : String) (s : Store) : Except Unit Bool × Store :=
  match takeNextQueuedItem now none s with
  | (none, s') => (Except.ok false, s')
  | (some item, s') =>
    if getTypeOk item.type then
      if renderOk then
        let p := buildAssetPaths item.type item.id dataRoot
        (Except.ok true, markRenderResult now item.id p.1 p.2.1 p.2.2 now s')
      else
        (Except.ok false, markRenderFailure now item.id s')
    else
      (Except.error (), s')

/-- Sequential composition of `n` claim calls.  SQLite's
`BEGIN IMMEDIATE` serializes the claimers, so `n` concurrent
`takeNextQueuedItem` calls execute as some sequential order of `n`
single claims; this function is that serialized execution. -/
def claimMany (now : Nat) (type? : Option String) : Nat → Store → List ItemRecord × Store
  | 0, s => ([], s)
  | n + 1, s =>
    match takeNextQueuedItem now type? s with
    | (none, s') => ([], s')
    | (some r, s') =>
      let rest := claimMany now type? n s'
      (r :: rest.1, rest.2)

/-! Lemmas about the `ORDER BY created_at ASC LIMIT 1` selection. -/

theorem selectOldest_eq_none {l : List ItemRecord} :
    selectOldest l = none ↔ l = [] := by
  cases l with
  | nil => simp [selectOldest]
  | cons r rs =>
    simp only [selectOldest]
    cases h : selectOldest rs <;> simp [h]
    split <;> simp

theorem selectOldest_mem {l : List ItemRecord} {r : ItemRecord}
    (h : selectOldest l = some r) : r ∈ l := by
  induction l generalizing r with
  | nil => simp [selectOldest] at h
  | cons a rs ih =>
    simp only [selectOldest] at h
    cases hrs : selectOldest rs with
    | none => rw [hrs] at h; simp at h; simp [h]
    | some m =>
      rw [hrs] at h
      by_cases hle : a.created_at ≤ m.created_at
      · simp [hle] at h; simp [h]
      · simp [hle] at h
        exact List.mem_cons_of_mem a (ih (h ▸ hrs))

theorem selectOldest_le {l : List ItemRecord} {r : ItemRecord}
    (h : selectOldest l = some r) : ∀ x ∈ l, r.created_at ≤ x.created_at := by
  induction l generalizing r with
  | nil => simp [selectOldest] at h
  | cons a rs ih =>
    simp only [selectOldest] at h
    intro x hx
    cases hrs : selectOldest rs with
    | none =>
      rw [hrs] at h
      simp at h
      rcases List.mem_cons.mp hx with hxa | hxrs
      · simp [h, hxa]
      · exact absurd (selectOldest_eq_none.mp hrs ▸ hxrs) (List.not_mem_nil x)
    | some m =>
      rw [hrs] at h
      by_cases hle : a.created_at ≤ m.created_at
      · simp [hle] at h
        rcases List.mem_cons.mp hx with hxa | hxrs
        · simp [← h, hxa]
        · exact le_trans (h ▸ hle) (ih hrs x hxrs)
      · simp [hle] at h
        rcases List.mem_cons.mp hx with hxa | hxrs
        · subst hxa
          exact le_of_lt (h ▸ lt_of_not_le hle)
        · exact h ▸ ih hrs x hxrs

/-- Destructor for a successful claim: the returned row is the selected
row and the new table is the pointwise update. -/
theorem takeNext_some_dest {now : Nat} {type? : Option String} {s s' : Store}
    {row : ItemRecord} (h : takeNextQueuedItem now type? s = (some row, s')) :
    selectOldest (s.filter (queuedMatch type?)) = some row ∧
      s' = s.map fun r =>
        if r.id == row.id then
          { r with render_status := "rendering", updated_at := now }
        else r := by
  unfold takeNextQueuedItem at h
  cases hsel : selectOldest (s.filter (queuedMatch type?)) with
  | none => rw [hsel] at h; simp at h
  | some r0 =>
    rw [hsel] at h
    simp only at h
    injection h with h1 h2
    injection h1 with h1
    subst h1
    exact ⟨rfl, h2.symm⟩

theorem queuedMatch_status {type? : Option String} {r : ItemRecord}
    (h : queuedMatch type? r = true) : r.render_status = "queued" := by
  unfold queuedMatch at h
  simp only [Bool.and_eq_true, beq_iff_eq] at h
  exact h.1

/-- C3: for every store state, `takeNextQueuedItem(type?)` selects an item
with the smallest `created_at` among rows whose `render_status` is
`queued` (restricted to the given type when a nonempty one is supplied),
transitions exactly that row to `rendering`, and returns it; when no
queued row qualifies, it returns `none` and leaves every row unchanged. -/
theorem takeNextQueuedItem_claims_oldest_queued (now : Nat) (type? : Option String)
    (s : Store) (hids : (s.map ItemRecord.id).Nodup) :
    (∀ row s', takeNextQueuedItem now type? s = (some row, s') →
      row ∈ s ∧ queuedMatch type? row = true ∧
      (∀ r ∈ s, queuedMatch type? r = true → row.created_at ≤ r.created_at) ∧
      { row with render_status := "rendering", updated_at := now } ∈ s' ∧
      (∀ r ∈ s, r.id ≠ row.id → r ∈ s') ∧
      (∀ r ∈ s, r.id = row.id → r = row)) ∧
    (∀ s', takeNextQueuedItem now type? s = (none, s') →
      s' = s ∧ ∀ r ∈ s, queuedMatch type? r = false) := by
  constructor
  · intro row s' h
    obtain ⟨hsel, hs'⟩ := takeNext_some_dest h
    have hmemf : row ∈ s.filter (queuedMatch type?) := selectOldest_mem hsel
    have hmem : row ∈ s := (List.mem_filter.mp hmemf).1
    have hq : queuedMatch type? row = true := (List.mem_filter.mp hmemf).2
    refine ⟨hmem, hq, ?_, ?_, ?_, ?_⟩
    · intro r hr hrq
      exact selectOldest_le hsel r (List.mem_filter.mpr ⟨hr, hrq⟩)
    · rw [hs']
      refine List.mem_map.mpr ⟨row, hmem, ?_⟩
      simp
    · intro r hr hne
      rw [hs']
      refine List.mem_map.mpr ⟨r, hr, ?_⟩
      simp [hne]
    · intro r hr hid
      exact List.inj_on_of_nodup_map hids hr hmem hid
  · intro s' h
    unfold takeNextQueuedItem at h
    cases hsel : selectOldest (s.filter (queuedMatch type?)) with
    | none =>
      rw [hsel] at h
      simp only [Prod.mk.injEq] at h
      refine ⟨h.2.symm, ?_⟩
      have hfil : s.filter (queuedMatch type?) = [] := selectOldest_eq_none.mp hsel
      intro r hr
      by_contra hq
      have : r ∈ s.filter (queuedMatch type?) :=
        List.mem_filter.mpr ⟨hr, eq_true_of_ne_false hq⟩
      simp [hfil] at this
    | some r0 => rw [hsel] at h; simp at h

/-- Sample one-row store used to instantiate theorems with hypotheses at
concrete inputs. -/
def sampleQueuedItem : ItemRecord :=
  { id := "01", type := "quote", title := none, source_url := none,
    attributes := "", tags := none, submitted_by := none,
    render_status := "queued", og_path := none, embed_path := none,
    markdown_path := none, rendered_at := none, created_at := 1,
    updated_at := 1, render_failures := 0 }

/-- Witness for `takeNextQueuedItem_claims_oldest_queued` at a concrete
one-row store. -/
theorem takeNextQueuedItem_claims_oldest_queued_witness :
    sampleQueuedItem ∈ ([sampleQueuedItem] : Store) ∧
      queuedMatch none sampleQueuedItem = true :=
  let h := (takeNextQueuedItem_claims_oldest_queued 2 none [sampleQueuedItem]
    (by decide)).1 sampleQueuedItem
    [{ sampleQueuedItem with render_status := "rendering", updated_at := 2 }]
    (by decide)
  ⟨h.1, h.2.1⟩

/-- C9 (implicit): a successful claim returns the pre-transition snapshot
of the row — its `render_status` field still reads `queued` and it is the
record stored before the claim (so `updated_at` is the pre-claim
timestamp), even though the stored row has just been flipped to
`rendering` with a fresh `updated_at`. -/
theorem takeNextQueuedItem_returns_preclaim_snapshot (now : Nat)
    (type? : Option String) (s s' : Store) (row : ItemRecord)
    (h : takeNextQueuedItem now type? s = (some row, s')) :
    row ∈ s ∧ row.render_status = "queued" ∧
    { row with render_status := "rendering", updated_at := now } ∈ s' := by
  obtain ⟨hsel, hs'⟩ := takeNext_some_dest h
  have hmemf : row ∈ s.filter (queuedMatch type?) := selectOldest_mem hsel
  have hmem : row ∈ s := (List.mem_filter.mp hmemf).1
  refine ⟨hmem, queuedMatch_status (List.mem_filter.mp hmemf).2, ?_⟩
  rw [hs']
  refine List.mem_map.mpr ⟨row, hmem, ?_⟩
  simp

/-- Witness for `takeNextQueuedItem_returns_preclaim_snapshot` at a
concrete one-row store. -/
theorem takeNextQueuedItem_returns_preclaim_snapshot_witness :
    sampleQueuedItem.render_status = "queued" :=
  (takeNextQueuedItem_returns_preclaim_snapshot 2 none [sampleQueuedItem]
    [{ sampleQueuedItem with render_status := "rendering", updated_at := 2 }]
    sampleQueuedItem (by decide)).2.1

/-! Claim exclusivity: `n` serialized claims drain `min n M` distinct
items from a queue of `M` matching rows. -/

theorem takeNext_none_dest {now : Nat} {type? : Option String} {s s' : Store}
    (h : takeNextQueuedItem now type? s = (none, s')) :
    s' = s ∧ s.filter (queuedMatch type?) = [] := by
  unfold takeNextQueuedItem at h
  cases hsel : selectOldest (s.filter (queuedMatch type?)) with
  | none =>
    rw [hsel] at h
    simp only at h
    injection h with h1 h2
    exact ⟨h2.symm, selectOldest_eq_none.mp hsel⟩
  | some r0 => rw [hsel] at h; simp at h

/-- The claim UPDATE leaves every `id` in place. -/
theorem takeNext_ids (now : Nat) (type? : Option String) (s : Store) :
    (takeNextQueuedItem now type? s).2.map ItemRecord.id = s.map ItemRecord.id := by
  unfold takeNextQueuedItem
  cases hsel : selectOldest (s.filter (queuedMatch type?)) with
  | none => simp
  | some row =>
    simp only [List.map_map]
    apply List.map_congr_left
    intro r _
    simp only [Function.comp]
    split <;> rfl

/-- Splitting the claim UPDATE around the selected row: with unique ids,
every other row is left untouched. -/
theorem claim_update_decomp {s : Store} {row : ItemRecord} (now : Nat)
    (hrow : row ∈ s) (hids : (s.map ItemRecord.id).Nodup) :
    ∃ a b, s = a ++ row :: b ∧
      (s.map fun r => if r.id == row.id then
          { r with render_status := "rendering", updated_at := now } else r) =
        a ++ { row with render_status := "rendering", updated_at := now } :: b := by
  obtain ⟨a, b, rfl⟩ := List.append_of_mem hrow
  rw [List.map_append, List.map_cons, List.nodup_append] at hids
  obtain ⟨-, hnb, hdisj⟩ := hids
  have hna : ∀ x ∈ a, x.id ≠ row.id := by
    intro x hx heq
    exact hdisj (List.mem_map_of_mem ItemRecord.id hx)
      (heq ▸ List.mem_cons_self _ _)
  have hnb' : ∀ x ∈ b, x.id ≠ row.id := by
    intro x hx heq
    rw [List.nodup_cons] at hnb
    exact hnb.1 (heq ▸ List.mem_map_of_mem ItemRecord.id hx)
  refine ⟨a, b, rfl, ?_⟩
  rw [List.map_append, List.map_cons]
  have ha : (a.map fun r => if r.id == row.id then
      { r with render_status := "rendering", updated_at := now } else r) = a := by
    calc (a.map fun r => if r.id == row.id then
            { r with render_status := "rendering", updated_at := now } else r)
        = a.map id := List.map_congr_left (by
            intro x hx
            simp [beq_eq_false_iff_ne.mpr (hna x hx)])
      _ = a := List.map_id a
  have hb : (b.map fun r => if r.id == row.id then
      { r with render_status := "rendering", updated_at := now } else r) = b := by
    calc (b.map fun r => if r.id == row.id then
            { r with render_status := "rendering", updated_at := now } else r)
        = b.map id := List.map_congr_left (by
            intro x hx
            simp [beq_eq_false_iff_ne.mpr (hnb' x hx)])
      _ = b := List.map_id b
  rw [ha, hb]
  simp

/-- A claimed row is no longer queued, so the queue shrinks by one. -/
theorem takeNext_some_count {now : Nat} {type? : Option String} {s s' : Store}
    {row : ItemRecord} (h : takeNextQueuedItem now type? s = (some row, s'))
    (hids : (s.map ItemRecord.id).Nodup) :
    (s'.filter (queuedMatch type?)).length + 1 = (s.filter (queuedMatch type?)).length := by
  obtain ⟨hsel, hs'⟩ := takeNext_some_dest h
  have hmemf := selectOldest_mem hsel
  have hmem : row ∈ s := (List.mem_filter.mp hmemf).1
  have hq : queuedMatch type? row = true := (List.mem_filter.mp hmemf).2
  obtain ⟨a, b, hdec, hmap⟩ := claim_update_decomp now hmem hids
  have hqupd : queuedMatch type?
      { row with render_status := "rendering", updated_at := now } = false := by
    simp [queuedMatch]
  rw [hs', hmap, hdec, List.filter_append, List.filter_append,
    List.filter_cons, List.filter_cons, hq, hqupd]
  simp
  omega

/-- Every item returned by a run of serialized claims was a queued,
matching row of the store it was claimed from. -/
theorem claimMany_mem {now : Nat} {type? : Option String} :
    ∀ {n : Nat} {s : Store} {x : ItemRecord}, x ∈ (claimMany now type? n s).1 →
      x ∈ s ∧ queuedMatch type? x = true := by
  intro n
  induction n with
  | zero => intro s x hx; simp [claimMany] at hx
  | succ n ih =>
    intro s x hx
    simp only [claimMany] at hx
    rcases htake : takeNextQueuedItem now type? s with ⟨res, s'⟩
    rw [htake] at hx
    cases res with
    | none => simp at hx
    | some r =>
      simp only [List.mem_cons] at hx
      rcases hx with rfl | hx'
      · obtain ⟨hsel, -⟩ := takeNext_some_dest htake
        have hm := selectOldest_mem hsel
        exact ⟨(List.mem_filter.mp hm).1, (List.mem_filter.mp hm).2⟩
      · obtain ⟨hx's, hx'q⟩ := ih hx'
        obtain ⟨-, hs'⟩ := takeNext_some_dest htake
        rw [hs'] at hx's
        obtain ⟨y, hy, hyx⟩ := List.mem_map.mp hx's
        by_cases hid : y.id == r.id
        · exfalso
          rw [if_pos hid] at hyx
          rw [← hyx] at hx'q
          simp [queuedMatch] at hx'q
        · rw [if_neg hid] at hyx
          exact ⟨hyx ▸ hy, hx'q⟩

/-- C1: claim exclusivity.  SQLite's `BEGIN IMMEDIATE` makes each
`takeNextQueuedItem` call an atomic select-and-transition, so `N`
concurrent claimers execute as `N` serialized claims (`claimMany`);
against a store with unique ids holding `M` matching queued rows, exactly
`min N M` items are returned, all distinct — no item reaches two callers
and no item is returned twice. -/
theorem claimMany_exclusive (now : Nat) (type? : Option String) (n : Nat) (s : Store)
    (hids : (s.map ItemRecord.id).Nodup) :
    (claimMany now type? n s).1.length = min n (s.filter (queuedMatch type?)).length ∧
    ((claimMany now type? n s).1.map ItemRecord.id).Nodup := by
  induction n generalizing s with
  | zero => simp [claimMany]
  | succ n ih =>
    simp only [claimMany]
    rcases htake : takeNextQueuedItem now type? s with ⟨res, s'⟩
    cases res with
    | none =>
      obtain ⟨-, hfil⟩ := takeNext_none_dest htake
      simp [hfil]
    | some r =>
      have hids' : (s'.map ItemRecord.id).Nodup := by
        have := takeNext_ids now type? s
        rw [htake] at this
        simpa [this] using hids
      have hcount := takeNext_some_count htake hids
      obtain ⟨hlen, hnodup⟩ := ih s' hids'
      constructor
      · simp only [List.length_cons, hlen]
        omega
      · simp only [List.map_cons, List.nodup_cons]
        refine ⟨?_, hnodup⟩
        intro hrid
        obtain ⟨x, hx, hxid⟩ := List.mem_map.mp hrid
        obtain ⟨hxs', hxq⟩ := claimMany_mem hx
        obtain ⟨hsel, hs'⟩ := takeNext_some_dest htake
        have hmem : r ∈ s := (List.mem_filter.mp (selectOldest_mem hsel)).1
        have hupd : { r with render_status := "rendering", updated_at := now } ∈ s' := by
          rw [hs']
          exact List.mem_map.mpr ⟨r, hmem, by simp⟩
        have hx_eq : x = { r with render_status := "rendering", updated_at := now } :=
          List.inj_on_of_nodup_map hids' hxs' hupd (by simpa using hxid)
        rw [hx_eq] at hxq
        simp [queuedMatch] at hxq

/-- Witness for `claimMany_exclusive` at a concrete one-row store. -/
theorem claimMany_exclusive_witness :
    (claimMany 2 none 2 [sampleQueuedItem]).1.length =
      min 2 (([sampleQueuedItem] : Store).filter (queuedMatch none)).length :=
  (claimMany_exclusive 2 none 2 [sampleQueuedItem] (by decide)).1

/-! Claims about the PATCH update path and the worker failure path. -/

/-- Sample rendered item carrying artifact paths. -/
def sampleRenderedItem : ItemRecord :=
  { id := "01", type := "quote", title := some "Hello",
    source_url := some "https://example.com/", attributes := "\x7b\x7d",
    tags := some "[]", submitted_by := none,
    render_status := "rendered",
    og_path := some "/data/og/quote/01.jpg",
    embed_path := some "/data/embed/quote/01.html",
    markdown_path := some "/data/markdown/quote/01.md",
    rendered_at := some 10, created_at := 1, updated_at := 10,
    render_failures := 3 }

/-- C2 (code-bug evaluation): the PATCH handler's `updateItem` call does
set `render_status` back to `queued` and reset `render_failures` to 0,
but its explicit `ogPath: null`, `embedPath: null`, `markdownPath: null`
and `renderedAt: null` arguments reach SQL as NULL and go through
`COALESCE(NULL, column)`, which KEEPS the old artifact paths and render
timestamp instead of clearing them: after the update the row still
points at the stale artifacts. -/
theorem patchItemStore_keeps_stale_paths :
    patchItemStore 11 "01" "quote"
        { title := "Hello", sourceUrl := some "https://example.com/",
          attributesJson := "\x7b\x7d", tags := [] } none [sampleRenderedItem] =
      [{ sampleRenderedItem with
          render_status := "queued", render_failures := 0, updated_at := 11 }] ∧
    ({ sampleRenderedItem with
        render_status := "queued", render_failures := 0, updated_at := 11 } : ItemRecord).og_path
        = some "/data/og/quote/01.jpg" ∧
    ({ sampleRenderedItem with
        render_status := "queued", render_failures := 0, updated_at := 11 } : ItemRecord).rendered_at
        = some 10 := by decide

/-- Sample queued item of a type that is not registered. -/
def sampleMysteryItem : ItemRecord :=
  { id := "02", type := "mystery", title := none, source_url := none,
    attributes := "", tags := none, submitted_by := none,
    render_status := "queued",
    og_path := some "/data/og/mystery/02.jpg",
    embed_path := none, markdown_path := none,
    rendered_at := none, created_at := 1, updated_at := 1,
    render_failures := 2 }

/-- C4 counterexample: with only the `quote` type registered, a worker
pass over a queued item of an unknown type throws in `getType` *before*
the try/catch, so `markRenderFailure` never runs: the claimed item is
left in `rendering` — not `failed` — and its failure counter is
unchanged, refuting the claim for exceptions thrown during type lookup. -/
theorem processQueuedItem_type_lookup_skips_markFailure :
    processQueuedItem 9 (fun t => t == "quote") true "/data" [sampleMysteryItem] =
      (Except.error (),
        [{ sampleMysteryItem with render_status := "rendering", updated_at := 9 }]) ∧
    ({ sampleMysteryItem with render_status := "rendering", updated_at := 9 } : ItemRecord).render_status
        ≠ "failed" ∧
    ({ sampleMysteryItem with render_status := "rendering", updated_at := 9 } : ItemRecord).render_failures
        = sampleMysteryItem.render_failures :=
  ⟨rfl, by decide, by decide⟩

/-- C4 amended: a failure inside the worker's guarded try block
(rendering, markdown generation, or any artifact write — after the type
lookup has succeeded) leaves the claimed item with `render_status`
`failed` and `render_failures` exactly one greater than before, and does
not alter its stored `og_path`, `embed_path`, `markdown_path` or
`rendered_at`; an exception from the type lookup itself instead escapes
the per-item handler (see the counterexample). -/
theorem processQueuedItem_failure_marks_failed (now : Nat)
    (getTypeOk : String → Bool) (dataRoot : String) (s s' : Store)
    (item : ItemRecord) (hclaim : takeNextQueuedItem now none s = (some item, s'))
    (hty : getTypeOk item.type = true) :
    processQueuedItem now getTypeOk false dataRoot s =
      (Except.ok false, markRenderFailure now item.id s') ∧
    { item with
        render_status := "failed",
        render_failures := item.render_failures + 1,
        updated_at := now } ∈ (processQueuedItem now getTypeOk false dataRoot s).2 := by
  have hfirst : processQueuedItem now getTypeOk false dataRoot s =
      (Except.ok false, markRenderFailure now item.id s') := by
    unfold processQueuedItem
    rw [hclaim]
    simp [hty]
  refine ⟨hfirst, ?_⟩
  rw [hfirst]
  have hu : { item with render_status := "rendering", updated_at := now } ∈ s' := by
    obtain ⟨-, hs'⟩ := takeNext_some_dest hclaim
    rw [hs']
    exact List.mem_map.mpr
      ⟨item, (List.mem_filter.mp (selectOldest_mem (takeNext_some_dest hclaim).1)).1, by simp⟩
  unfold markRenderFailure
  refine List.mem_map.mpr ⟨{ item with render_status := "rendering", updated_at := now }, hu, ?_⟩
  simp

/-- Witness for `processQueuedItem_failure_marks_failed` at a concrete
one-row store. -/
theorem processQueuedItem_failure_marks_failed_witness :
    { sampleQueuedItem with
        render_status := "failed",
        render_failures := sampleQueuedItem.render_failures + 1,
        updated_at := 2 } ∈
      (processQueuedItem 2 (fun t => t == "quote") false "/data" [sampleQueuedItem]).2 :=
  (processQueuedItem_failure_marks_failed 2 (fun t => t == "quote") "/data"
    [sampleQueuedItem]
    [{ sampleQueuedItem with render_status := "rendering", updated_at := 2 }]
    sampleQueuedItem (by decide) (by decide)).2

/-! JS strings: whitespace trimming over explicit character lists. -/

/-- Whitespace recognized by JS `String.prototype.trim` and the `\s`
class on the ASCII range (the repository's inputs; exotic Unicode space
code points are not modeled). -/
def isJsWs (c : Char) : Bool :=
  c = ' ' || c = '\t' || c = '\n' || c = '\r' || c = '\x0b' || c = '\x0c'

/-- Leading and trailing whitespace removal on a character list. -/
def trimList (l : List Char) : List Char :=
  ((l.dropWhile isJsWs).reverse.dropWhile isJsWs).reverse

/-- `String.prototype.trim`. -/
def jsTrim (s : String) : String :=
  String.mk (trimList s.toList)

theorem dropWhile_dropWhile_same {α : Type} (p : α → Bool) (l : List α) :
    (l.dropWhile p).dropWhile p = l.dropWhile p := by
  induction l with
  | nil => rfl
  | cons a l ih =>
    by_cases h : p a
    · simp [List.dropWhile_cons, h, ih]
    · simp [List.dropWhile_cons, h]

theorem dropWhile_head? {α : Type} (p : α → Bool) (l : List α) :
    ∀ a, (l.dropWhile p).head? = some a → p a = false := by
  induction l with
  | nil => intro a h; simp at h
  | cons b l ih =>
    intro a h
    by_cases hb : p b
    · rw [List.dropWhile_cons_of_pos hb] at h
      exact ih a h
    · rw [List.dropWhile_cons_of_neg hb] at h
      simp at h
      exact h ▸ Bool.eq_false_iff.mpr hb

theorem dropWhile_eq_self_of_head? {α : Type} (p : α → Bool) (l : List α)
    (h : ∀ a, l.head? = some a → p a = false) : l.dropWhile p = l := by
  cases l with
  | nil => rfl
  | cons a l =>
    have := h a (by rfl)
    simp [List.dropWhile_cons, this]

theorem getLast?_dropWhile {α : Type} (p : α → Bool) (w : List α)
    (hne : w.dropWhile p ≠ []) : (w.dropWhile p).getLast? = w.getLast? := by
  induction w with
  | nil => simp at hne
  | cons a w ih =>
    by_cases ha : p a
    · rw [List.dropWhile_cons_of_pos ha] at hne ⊢
      have hw : w ≠ [] := by
        intro hw
        rw [hw] at hne
        simp at hne
      rw [ih hne]
      cases w with
      | nil => exact absurd rfl hw
      | cons b w' => rw [List.getLast?_cons_cons]
    · rw [List.dropWhile_cons_of_neg ha]

theorem trimList_trimList (l : List Char) : trimList (trimList l) = trimList l := by
  unfold trimList
  set t := l.dropWhile isJsWs with ht
  set u := t.reverse.dropWhile isJsWs with hu
  have hstable : u.reverse.dropWhile isJsWs = u.reverse := by
    apply dropWhile_eq_self_of_head?
    intro a ha
    have hune : u ≠ [] := by
      intro h0
      rw [h0] at ha
      simp at ha
    have h1 : u.reverse.head? = u.getLast? := List.head?_reverse u
    have h2 : u.getLast? = t.reverse.getLast? := getLast?_dropWhile _ _ hune
    have h3 : t.reverse.getLast? = t.head? := List.getLast?_reverse t
    rw [h1, h2, h3] at ha
    exact dropWhile_head? isJsWs l a (ht ▸ ha)
  rw [hstable, List.reverse_reverse, hu, dropWhile_dropWhile_same]

theorem trimList_length_le (l : List Char) : (trimList l).length ≤ l.length := by
  unfold trimList
  calc ((l.dropWhile isJsWs).reverse.dropWhile isJsWs).reverse.length
      = ((l.dropWhile isJsWs).reverse.dropWhile isJsWs).length := List.length_reverse _
    _ ≤ (l.dropWhile isJsWs).reverse.length := (List.dropWhile_suffix _).length_le
    _ = (l.dropWhile isJsWs).length := List.length_reverse _
    _ ≤ l.length := (List.dropWhile_suffix _).length_le

theorem jsTrim_jsTrim (s : String) : jsTrim (jsTrim s) = jsTrim s := by
  unfold jsTrim
  have : (String.mk (trimList s.toList)).toList = trimList s.toList := rfl
  rw [this, trimList_trimList]

theorem jsTrim_length_le (s : String) : (jsTrim s).length ≤ s.length := by
  unfold jsTrim
  have h1 : (String.mk (trimList s.toList)).length = (trimList s.toList).length := rfl
  have h2 : s.length = s.toList.length := rfl
  rw [h1, h2]
  exact trimList_length_le s.toList

/-! Quote type normalization (`src/types/quote.ts`). -/

/-- Element of a raw JS array value.  `normalize` only ever asks
`typeof entry === "string"` of an array element, so every non-string
element (numbers, nested arrays, objects, null) is `eOther`. -/
inductive JsElem where
  | eStr (s : String)
  | eOther
deriving DecidableEq, Repr

/-- JS value as seen by `normalize`: strings, arrays, `null`, absent keys
(`undefined`), or any other JSON value (number, boolean, object), which
the validator only inspects through `typeof` / `Array.isArray`. -/
inductive JsValue where
  | vUndefined
  | vNull
  | vStr (s : String)
  | vArr (xs : List JsElem)
  | vOther
deriving DecidableEq, Repr

/-- A JS object used as an attribute bag: an insertion-ordered
association list; reading a missing key yields `undefined`. -/
abbrev Attrs := List (String × JsValue)

/-- Property read `attributes[name]`. -/
def getAttr (a : Attrs) (n : String) : JsValue :=
  match a.find? (fun p => p.1 == n) with
  | some p => p.2
  | none => JsValue.vUndefined

/-- Property assignment `result[name] = v`: updates the existing key in
place or appends a new one, preserving insertion order. -/
def setAttr (a : Attrs) (n : String) (v : JsValue) : Attrs :=
  match a with
  | [] => [(n, v)]
  | p :: rest => if p.1 == n then (n, v) :: rest else p :: setAttr rest n v

/-- One entry of the validation schema (`FieldDefinition`). -/
structure FieldDefinition where
  name : String
  ftype : String
  required : Bool
  maxLength : Option Nat
deriving DecidableEq, Repr

def quoteTextField : FieldDefinition :=
  { name := "quote_text", ftype := "string", required := true, maxLength := some 1000 }

def authorField : FieldDefinition :=
  { name := "author", ftype := "string", required := false, maxLength := some 200 }

def urlField : FieldDefinition :=
  { name := "url", ftype := "url", required := true, maxLength := none }

def articleTitleField : FieldDefinition :=
  { name := "article_title", ftype := "string", required := false, maxLength := some 200 }

def tagsField : FieldDefinition :=
  { name := "tags", ftype := "string[]", required := false, maxLength := none }

def bodyField : FieldDefinition :=
  { name := "body", ftype := "string", required := false, maxLength := some 2000 }

/-- The `quote` schema (`src/types/quote.ts`), in declaration order. -/
def schema : List FieldDefinition :=
  [quoteTextField, authorField, urlField, articleTitleField, tagsField, bodyField]

/-- The guard `value === undefined || value === null || value === ""`. -/
def isEmptyValue : JsValue → Bool
  | .vUndefined => true
  | .vNull => true
  | .vStr s => s == ""
  | _ => false

/-- The truthiness-guarded length check
`field.maxLength && value.length > field.maxLength` (an absent
`maxLength` is falsy and skips the check). -/
def lenExceeds (ml : Option Nat) (s : String) : Bool :=
  match ml with
  | some m => s.length > m
  | none => false

/-- Sanitization of a `string[]` field: non-strings map to `""`, entries
are trimmed, empty entries dropped. -/
def normalizeEntries (xs : List JsElem) : List String :=
  (xs.map fun e => match e with
    | JsElem.eStr s => jsTrim s
    | _ => "").filter (fun s => decide (0 < s.length))

/-- One iteration of the `for (const field of schema)` loop of
`normalize`: reads the field from the raw attribute bag, appends this
field's validation errors, and assigns the sanitized value onto the
result object.  The WHATWG `new URL(value).toString()` pair is the
parameter `parseUrl`; `none` models the constructor throwing. -/
def processField (parseUrl : String → Option String) (attributes : Attrs)
    (st : Attrs × List String) (field : FieldDefinition) : Attrs × List String :=
  let value := getAttr attributes field.name
  if field.required && isEmptyValue value then
    (st.1, st.2 ++ ["Missing required field: " ++ field.name])
  else if isEmptyValue value then st
  else if field.ftype == "string" then
    match value with
    | JsValue.vStr s =>
      let st' :=
        if lenExceeds field.maxLength s then
          (st.1, st.2 ++ ["Field " ++ field.name ++ " exceeds max length "
            ++ toString (field.maxLength.getD 0)])
        else st
      (setAttr st'.1 field.name (JsValue.vStr (jsTrim s)), st'.2)
    | _ => (st.1, st.2 ++ ["Expected string for field: " ++ field.name])
  else if field.ftype == "url" then
    match value with
    | JsValue.vStr s =>
      match parseUrl s with
      | some u => (setAttr st.1 field.name (JsValue.vStr u), st.2)
      | none => (st.1, st.2 ++ ["Invalid URL for field: " ++ field.name])
    | _ => (st.1, st.2 ++ ["Expected URL string for field: " ++ field.name])
  else if field.ftype == "string[]" then
    match value with
    | JsValue.vArr xs =>
      (setAttr st.1 field.name (JsValue.vArr ((normalizeEntries xs).map JsElem.eStr)), st.2)
    | _ => (st.1, st.2 ++ ["Expected string array for field: " ++ field.name])
  else st

/-- The result object before the loop: `{ quote_text: "", url: "" }`. -/
def initResult : Attrs :=
  [("quote_text", JsValue.vStr ""), ("url", JsValue.vStr "")]

/-- `value ?? fallback` for the `title` read: nullish values select the
fallback; the only non-nullish value ever stored under `article_title` is
a string. -/
def nullishStr (v : JsValue) (fallback : String) : String :=
  match v with
  | JsValue.vStr s => s
  | _ => fallback

/-- String stored at a key of the result object (`quote_text` and `url`
always hold strings, seeded by `initResult`). -/
def strValue (v : JsValue) : String :=
  match v with
  | JsValue.vStr s => s
  | _ => ""

/-- Normalized payload returned by `normalize` for the `quote` type. -/
structure NormalizedPayloadQ where
  attributes : Attrs
  title : String
  sourceUrl : String
  tags : List String
deriving DecidableEq, Repr

/-- `normalize` (`src/types/quote.ts`): folds the schema over the raw
attribute bag, accumulating errors as data (nothing is thrown), then
derives `title` (`result.article_title ?? result.quote_text.slice(0, 120)`),
`sourceUrl` (`result.url`) and `tags`
(`Array.isArray(result.tags) ? result.tags : []`). -/
def normalize (parseUrl : String → Option String) (attributes : Attrs) :
    NormalizedPayloadQ × List String :=
  let st := schema.foldl (processField parseUrl attributes) (initResult, [])
  let result := st.1
  ({ attributes := result,
     title := nullishStr (getAttr result "article_title")
       ((strValue (getAttr result "quote_text")).take 120),
     sourceUrl := strValue (getAttr result "url"),
     tags := match getAttr result "tags" with
       | JsValue.vArr xs => xs.map (fun e => match e with
           | JsElem.eStr s => s
           | _ => "")
       | _ => [] },
   st.2)

/-- Errors contributed by one schema field, a function of that field's
raw value alone (plus the URL parser): the shape in which `normalize`
accumulates its report. -/
def fieldErrors (parseUrl : String → Option String) (attributes : Attrs)
    (field : FieldDefinition) : List String :=
  let value := getAttr attributes field.name
  if field.required && isEmptyValue value then
    ["Missing required field: " ++ field.name]
  else if isEmptyValue value then []
  else if field.ftype == "string" then
    match value with
    | JsValue.vStr s =>
      if lenExceeds field.maxLength s then
        ["Field " ++ field.name ++ " exceeds max length "
          ++ toString (field.maxLength.getD 0)]
      else []
    | _ => ["Expected string for field: " ++ field.name]
  else if field.ftype == "url" then
    match value with
    | JsValue.vStr s =>
      match parseUrl s with
      | some _ => []
      | none => ["Invalid URL for field: " ++ field.name]
    | _ => ["Expected URL string for field: " ++ field.name]
  else if field.ftype == "string[]" then
    match value with
    | JsValue.vArr _ => []
    | _ => ["Expected string array for field: " ++ field.name]
  else []

theorem processField_errors (u : String → Option String) (a : Attrs)
    (st : Attrs × List String) (f : FieldDefinition) :
    (processField u a st f).2 = st.2 ++ fieldErrors u a f := by
  unfold processField fieldErrors
  rcases hv : getAttr a f.name with _ | _ | s | xs | _ <;>
    simp only [isEmptyValue] <;>
    split_ifs <;>
    first
    | rfl
    | simp
    | (repeat' split <;> simp)

theorem foldl_processField_errors (u : String → Option String) (a : Attrs)
    (fields : List FieldDefinition) :
    ∀ st : Attrs × List String,
      (fields.foldl (processField u a) st).2 =
        st.2 ++ (fields.map (fieldErrors u a)).flatten := by
  induction fields with
  | nil => intro st; simp
  | cons f fs ih =>
    intro st
    simp only [List.foldl_cons, List.map_cons, List.flatten_cons]
    rw [ih, processField_errors, List.append_assoc]

/-- C5: `normalize` checks every schema field independently — its error
report is exactly the concatenation of the per-field violation lists
(missing required field, wrong type, max length, invalid URL), so no
violation masks another; in particular an input missing both required
fields `quote_text` and `url` yields one error for each.  Errors are the
second component of the returned pair — data, never thrown (`normalize`
is a total function). -/
theorem normalize_accumulates_all_errors (parseUrl : String → Option String)
    (attributes : Attrs) :
    (normalize parseUrl attributes).2 =
      (schema.map (fieldErrors parseUrl attributes)).flatten ∧
    (normalize parseUrl []).2 =
      ["Missing required field: quote_text", "Missing required field: url"] := by
  constructor
  · unfold normalize
    simp only
    rw [foldl_processField_errors]
    simp
  · rfl

/-- C6 counterexample: the payload produced by an accepted input is not a
fixed point of `normalize`.  With `author: " "` the first pass stores the
trimmed `author: ""` on the result object (and reports no error), but the
second pass treats `""` as an absent optional field and drops the key, so
the payloads differ.  The URL parser is instantiated with the identity on
the already-canonical `https://example.com/`, exactly what
`new URL("https://example.com/").toString()` returns. -/
theorem normalize_not_idempotent :
    (normalize Option.some
      [("quote_text", JsValue.vStr "hi"),
       ("url", JsValue.vStr "https://example.com/"),
       ("author", JsValue.vStr " ")]).2 = [] ∧
    (normalize Option.some
      ((normalize Option.some
        [("quote_text", JsValue.vStr "hi"),
         ("url", JsValue.vStr "https://example.com/"),
         ("author", JsValue.vStr " ")]).1.attributes)).1 ≠
      (normalize Option.some
        [("quote_text", JsValue.vStr "hi"),
         ("url", JsValue.vStr "https://example.com/"),
         ("author", JsValue.vStr " ")]).1 := by
  constructor
  · rfl
  · decide

/-! Object-assignment lemmas and the second-pass analysis of
`normalize`. -/

theorem getAttr_setAttr_same (a : Attrs) (n : String) (v : JsValue) :
    getAttr (setAttr a n v) n = v := by
  induction a with
  | nil => simp [setAttr, getAttr, List.find?]
  | cons p rest ih =>
    by_cases h : p.1 == n
    · simp [setAttr, h, getAttr, List.find?]
    · simp only [setAttr, h, if_false, Bool.false_eq_true]
      simp only [getAttr, List.find?, h]
      exact ih

theorem getAttr_setAttr_other (a : Attrs) (n m : String) (v : JsValue)
    (h : m ≠ n) : getAttr (setAttr a n v) m = getAttr a m := by
  induction a with
  | nil =>
    simp only [setAttr, getAttr, List.find?]
    have : (n == m) = false := beq_eq_false_iff_ne.mpr (fun hnm => h hnm.symm)
    simp [this]
  | cons p rest ih =>
    by_cases hp : p.1 == n
    · simp only [setAttr, hp, if_true]
      have h1 : (n == m) = false := beq_eq_false_iff_ne.mpr (fun hnm => h hnm.symm)
      have h2 : p.1 = n := beq_iff_eq.mp hp
      simp [getAttr, List.find?, h1, h2]
    · simp only [setAttr, hp, if_false, Bool.false_eq_true]
      simp only [getAttr, List.find?]
      cases hpm : p.1 == m
      · exact ih
      · rfl

theorem setAttr_self (a : Attrs) (n : String) (v : JsValue)
    (h : getAttr a n = v) (hv : v ≠ JsValue.vUndefined) : setAttr a n v = a := by
  induction a with
  | nil => simp [getAttr, List.find?] at h; exact absurd h.symm hv
  | cons p rest ih =>
    by_cases hp : p.1 == n
    · simp only [getAttr, List.find?, hp] at h
      simp only [setAttr, hp, if_true]
      have h2 : p.1 = n := beq_iff_eq.mp hp
      rw [← h, ← h2]
    · simp only [getAttr, List.find?, hp] at h
      simp only [setAttr, hp, if_false, Bool.false_eq_true]
      rw [ih h]

/-- Value one schema field stores onto the result object during a
`normalize` pass (`none` when the iteration assigns nothing). -/
def fieldStore (parseUrl : String → Option String) (attributes : Attrs)
    (field : FieldDefinition) : Option JsValue :=
  let value := getAttr attributes field.name
  if field.required && isEmptyValue value then none
  else if isEmptyValue value then none
  else if field.ftype == "string" then
    match value with
    | JsValue.vStr s => some (JsValue.vStr (jsTrim s))
    | _ => none
  else if field.ftype == "url" then
    match value with
    | JsValue.vStr s =>
      match parseUrl s with
      | some t => some (JsValue.vStr t)
      | none => none
    | _ => none
  else if field.ftype == "string[]" then
    match value with
    | JsValue.vArr xs => some (JsValue.vArr ((normalizeEntries xs).map JsElem.eStr))
    | _ => none
  else none

theorem processField_result (u : String → Option String) (a : Attrs)
    (st : Attrs × List String) (f : FieldDefinition) :
    (processField u a st f).1 =
      match fieldStore u a f with
      | some v => setAttr st.1 f.name v
      | none => st.1 := by
  unfold processField fieldStore
  rcases hv : getAttr a f.name with _ | _ | s | xs | _ <;>
    simp only [isEmptyValue] <;>
    split_ifs <;>
    first
    | rfl
    | simp
    | (repeat' split <;> simp)

theorem getAttr_processField_other (u : String → Option String) (a : Attrs)
    (st : Attrs × List String) (f : FieldDefinition) (n : String)
    (h : n ≠ f.name) :
    getAttr (processField u a st f).1 n = getAttr st.1 n := by
  rw [processField_result]
  cases fieldStore u a f with
  | none => rfl
  | some v => exact getAttr_setAttr_other _ _ _ _ h

theorem getAttr_processField_same (u : String → Option String) (a : Attrs)
    (st : Attrs × List String) (f : FieldDefinition) :
    getAttr (processField u a st f).1 f.name =
      (fieldStore u a f).getD (getAttr st.1 f.name) := by
  rw [processField_result]
  cases fieldStore u a f with
  | none => rfl
  | some v => exact getAttr_setAttr_same _ _ _

/-- The result object built by one pass of `normalize`. -/
def normResult (u : String → Option String) (a : Attrs) : Attrs :=
  (schema.foldl (processField u a) (initResult, [])).1

theorem normalize_fst_congr (u : String → Option String) {X Y : Attrs}
    (h : normResult u X = normResult u Y) :
    (normalize u X).1 = (normalize u Y).1 := by
  unfold normalize
  simp only
  have hX : (schema.foldl (processField u X) (initResult, [])).1 = normResult u X := rfl
  have hY : (schema.foldl (processField u Y) (initResult, [])).1 = normResult u Y := rfl
  rw [hX, hY, h]

theorem fieldStore_empty (u : String → Option String) (a : Attrs)
    (f : FieldDefinition) (h : isEmptyValue (getAttr a f.name) = true) :
    fieldStore u a f = none := by
  unfold fieldStore
  by_cases hr : f.required <;> simp [h, hr]

/-- Second-pass step for a `string` field: feeding the first pass's
result object back through the same loop iteration produces the same
result object. -/
theorem processField_string_second (u : String → Option String) (B A : Attrs)
    (stB stA : Attrs × List String) (f : FieldDefinition)
    (hft : f.ftype = "string")
    (hres : stA.1 = stB.1)
    (herrf : fieldErrors u B f = [])
    (hAf : getAttr A f.name = (fieldStore u B f).getD (getAttr initResult f.name))
    (hcur : getAttr stB.1 f.name = getAttr initResult f.name)
    (hsafe : ∀ s, getAttr B f.name = JsValue.vStr s → s ≠ "" → jsTrim s = "" →
      getAttr initResult f.name = JsValue.vStr "")
    (hinit : getAttr initResult f.name = JsValue.vStr "" ∨
      getAttr initResult f.name = JsValue.vUndefined) :
    (processField u A stA f).1 = (processField u B stB f).1 := by
  rw [processField_result, processField_result]
  rcases hv : getAttr B f.name with _ | _ | s | xs | _
  · -- undefined: nothing stored, second pass reads the init value
    have hB0 : fieldStore u B f = none := fieldStore_empty u B f (by simp [hv, isEmptyValue])
    have hA0 : fieldStore u A f = none := by
      apply fieldStore_empty
      rw [hAf, hB0]
      rcases hinit with h | h <;> simp [h, isEmptyValue]
    rw [hB0, hA0]
    exact hres
  · -- null
    have hB0 : fieldStore u B f = none := fieldStore_empty u B f (by simp [hv, isEmptyValue])
    have hA0 : fieldStore u A f = none := by
      apply fieldStore_empty
      rw [hAf, hB0]
      rcases hinit with h | h <;> simp [h, isEmptyValue]
    rw [hB0, hA0]
    exact hres
  · -- string value
    by_cases hs : s = ""
    · -- empty string: treated as absent
      have hB0 : fieldStore u B f = none :=
        fieldStore_empty u B f (by simp [hv, hs, isEmptyValue])
      have hA0 : fieldStore u A f = none := by
        apply fieldStore_empty
        rw [hAf, hB0]
        rcases hinit with h | h <;> simp [h, isEmptyValue]
      rw [hB0, hA0]
      exact hres
    · -- nonempty string: first pass stored the trimmed value
      have hB1 : fieldStore u B f = some (JsValue.vStr (jsTrim s)) := by
        unfold fieldStore
        rw [hv]
        simp [isEmptyValue, hs, hft]
      by_cases ht : jsTrim s = ""
      · -- whitespace-only: second pass skips; the stored value must be
        -- the init seed, so re-storing it was a no-op
        have hinit0 : getAttr initResult f.name = JsValue.vStr "" := hsafe s hv hs ht
        have hA0 : fieldStore u A f = none := by
          apply fieldStore_empty
          rw [hAf, hB1]
          simp [ht, isEmptyValue]
        rw [hB1, hA0, hres]
        show stB.1 = setAttr stB.1 f.name (JsValue.vStr (jsTrim s))
        have hcur0 : getAttr stB.1 f.name = JsValue.vStr (jsTrim s) := by
          rw [hcur, hinit0, ht]
        exact (setAttr_self stB.1 f.name (JsValue.vStr (jsTrim s)) hcur0 (by simp)).symm
      · -- properly trimmed: second pass stores the same value again
        have hA1 : fieldStore u A f = some (JsValue.vStr (jsTrim s)) := by
          unfold fieldStore
          rw [hAf, hB1]
          simp only [Option.getD_some]
          simp [isEmptyValue, ht, hft, jsTrim_jsTrim]
        rw [hB1, hA1, hres]
  · -- array: type error in the first pass, contradicting herrf
    exfalso
    have : fieldErrors u B f ≠ [] := by
      unfold fieldErrors
      rw [hv]
      by_cases hr : f.required <;> simp [isEmptyValue, hr, hft]
    exact this herrf
  · -- other: type error in the first pass
    exfalso
    have : fieldErrors u B f ≠ [] := by
      unfold fieldErrors
      rw [hv]
      by_cases hr : f.required <;> simp [isEmptyValue, hr, hft]
    exact this herrf

theorem mem_normalizeEntries_trim {xs : List JsElem} {s : String}
    (h : s ∈ normalizeEntries xs) : jsTrim s = s := by
  unfold normalizeEntries at h
  obtain ⟨hmap, -⟩ := List.mem_filter.mp h
  obtain ⟨e, -, hge⟩ := List.mem_map.mp hmap
  cases e with
  | eStr t => rw [← hge]; exact jsTrim_jsTrim t
  | eOther => rw [← hge]; rfl

theorem normalizeEntries_fixed (l : List String)
    (htrim : ∀ s ∈ l, jsTrim s = s)
    (hpos : ∀ s ∈ l, decide (0 < s.length) = true) :
    normalizeEntries (l.map JsElem.eStr) = l := by
  unfold normalizeEntries
  rw [List.map_map]
  have h1 : l.map
      ((fun e => match e with
        | JsElem.eStr s => jsTrim s
        | _ => "") ∘ JsElem.eStr) = l := by
    calc l.map ((fun e => match e with
            | JsElem.eStr s => jsTrim s
            | _ => "") ∘ JsElem.eStr)
        = l.map id := List.map_congr_left (fun s hs => htrim s hs)
      _ = l := List.map_id _
  rw [h1]
  exact List.filter_eq_self.mpr hpos

theorem normalizeEntries_canonical (xs : List JsElem) :
    normalizeEntries ((normalizeEntries xs).map JsElem.eStr) = normalizeEntries xs := by
  apply normalizeEntries_fixed
  · intro s hs
    exact mem_normalizeEntries_trim hs
  · intro s hs
    unfold normalizeEntries at hs
    exact (List.mem_filter.mp hs).2

/-- Second-pass step for the `url` field: the canonical URL stored by the
first pass reparses to itself (URL serialization stability), so the
second pass stores the same value. -/
theorem processField_url_second (u : String → Option String) (B A : Attrs)
    (stB stA : Attrs × List String) (f : FieldDefinition)
    (hft : f.ftype = "url")
    (hstable : ∀ s t, u s = some t → u t = some t)
    (hres : stA.1 = stB.1)
    (herrf : fieldErrors u B f = [])
    (hAf : getAttr A f.name = (fieldStore u B f).getD (getAttr initResult f.name))
    (hcur : getAttr stB.1 f.name = getAttr initResult f.name)
    (hinitstr : getAttr initResult f.name = JsValue.vStr "") :
    (processField u A stA f).1 = (processField u B stB f).1 := by
  have hnotstr : (f.ftype == "string") = false := by simp [hft]
  rw [processField_result, processField_result]
  rcases hv : getAttr B f.name with _ | _ | s | xs | _
  · have hB0 : fieldStore u B f = none := fieldStore_empty u B f (by simp [hv, isEmptyValue])
    have hA0 : fieldStore u A f = none := by
      apply fieldStore_empty
      rw [hAf, hB0]
      simp [hinitstr, isEmptyValue]
    rw [hB0, hA0]
    exact hres
  · have hB0 : fieldStore u B f = none := fieldStore_empty u B f (by simp [hv, isEmptyValue])
    have hA0 : fieldStore u A f = none := by
      apply fieldStore_empty
      rw [hAf, hB0]
      simp [hinitstr, isEmptyValue]
    rw [hB0, hA0]
    exact hres
  · by_cases hs : s = ""
    · have hB0 : fieldStore u B f = none :=
        fieldStore_empty u B f (by simp [hv, hs, isEmptyValue])
      have hA0 : fieldStore u A f = none := by
        apply fieldStore_empty
        rw [hAf, hB0]
        simp [hinitstr, isEmptyValue]
      rw [hB0, hA0]
      exact hres
    · rcases hp : u s with - | t
      · exfalso
        have : fieldErrors u B f ≠ [] := by
          unfold fieldErrors
          rw [hv]
          by_cases hr : f.required <;>
            simp [isEmptyValue, hr, hs, hnotstr, hft, hp]
        exact this herrf
      · have hB1 : fieldStore u B f = some (JsValue.vStr t) := by
          unfold fieldStore
          rw [hv]
          simp [isEmptyValue, hs, hnotstr, hft, hp]
        by_cases ht : t = ""
        · have hA0 : fieldStore u A f = none := by
            apply fieldStore_empty
            rw [hAf, hB1]
            simp [ht, isEmptyValue]
          rw [hB1, hA0, hres]
          show stB.1 = setAttr stB.1 f.name (JsValue.vStr t)
          have hcur0 : getAttr stB.1 f.name = JsValue.vStr t := by
            rw [hcur, hinitstr, ht]
          exact (setAttr_self stB.1 f.name (JsValue.vStr t) hcur0 (by simp)).symm
        · have hA1 : fieldStore u A f = some (JsValue.vStr t) := by
            unfold fieldStore
            rw [hAf, hB1]
            simp only [Option.getD_some]
            simp [isEmptyValue, ht, hnotstr, hft, hstable s t hp]
          rw [hB1, hA1, hres]
  · exfalso
    have : fieldErrors u B f ≠ [] := by
      unfold fieldErrors
      rw [hv]
      by_cases hr : f.required <;> simp [isEmptyValue, hr, hnotstr, hft]
    exact this herrf
  · exfalso
    have : fieldErrors u B f ≠ [] := by
      unfold fieldErrors
      rw [hv]
      by_cases hr : f.required <;> simp [isEmptyValue, hr, hnotstr, hft]
    exact this herrf

/-- Second-pass step for the `string[]` field: entries stored by the
first pass are already trimmed and nonempty, so re-sanitizing them is the
identity. -/
theorem processField_strArr_second (u : String → Option String) (B A : Attrs)
    (stB stA : Attrs × List String) (f : FieldDefinition)
    (hft : f.ftype = "string[]")
    (hres : stA.1 = stB.1)
    (herrf : fieldErrors u B f = [])
    (hAf : getAttr A f.name = (fieldStore u B f).getD (getAttr initResult f.name))
    (hinitundef : getAttr initResult f.name = JsValue.vUndefined) :
    (processField u A stA f).1 = (processField u B stB f).1 := by
  have hnotstr : (f.ftype == "string") = false := by simp [hft]
  have hnoturl : (f.ftype == "url") = false := by simp [hft]
  rw [processField_result, processField_result]
  rcases hv : getAttr B f.name with _ | _ | s | xs | _
  · have hB0 : fieldStore u B f = none := fieldStore_empty u B f (by simp [hv, isEmptyValue])
    have hA0 : fieldStore u A f = none := by
      apply fieldStore_empty
      rw [hAf, hB0]
      simp [hinitundef, isEmptyValue]
    rw [hB0, hA0]
    exact hres
  · have hB0 : fieldStore u B f = none := fieldStore_empty u B f (by simp [hv, isEmptyValue])
    have hA0 : fieldStore u A f = none := by
      apply fieldStore_empty
      rw [hAf, hB0]
      simp [hinitundef, isEmptyValue]
    rw [hB0, hA0]
    exact hres
  · by_cases hs : s = ""
    · have hB0 : fieldStore u B f = none :=
        fieldStore_empty u B f (by simp [hv, hs, isEmptyValue])
      have hA0 : fieldStore u A f = none := by
        apply fieldStore_empty
        rw [hAf, hB0]
        simp [hinitundef, isEmptyValue]
      rw [hB0, hA0]
      exact hres
    · exfalso
      have : fieldErrors u B f ≠ [] := by
        unfold fieldErrors
        rw [hv]
        by_cases hr : f.required <;>
          simp [isEmptyValue, hr, hs, hnotstr, hnoturl, hft]
      exact this herrf
  · have hB1 : fieldStore u B f =
        some (JsValue.vArr ((normalizeEntries xs).map JsElem.eStr)) := by
      unfold fieldStore
      rw [hv]
      simp [isEmptyValue, hnotstr, hnoturl, hft]
    have hA1 : fieldStore u A f =
        some (JsValue.vArr ((normalizeEntries xs).map JsElem.eStr)) := by
      unfold fieldStore
      rw [hAf, hB1]
      simp only [Option.getD_some]
      simp [isEmptyValue, hnotstr, hnoturl, hft, normalizeEntries_canonical]
    rw [hB1, hA1, hres]
  · exfalso
    have : fieldErrors u B f ≠ [] := by
      unfold fieldErrors
      rw [hv]
      by_cases hr : f.required <;> simp [isEmptyValue, hr, hnotstr, hnoturl, hft]
    exact this herrf

/-- C6 amended: normalize is idempotent on accepted inputs *except* when
a present optional string field is nonempty but trims to whitespace-only
(the counterexample); under the additional hypothesis that no optional
string field (`author`, `article_title`, `body`) of the input is a
nonempty whitespace-only string — and granting that URL serialization is
reparse-stable, which the claim itself assumes — re-running `normalize`
on the produced attributes yields an identical payload: same attribute
object, same trimmed strings, same canonical URL, same tags, same derived
title. -/
theorem normalize_idempotent_amended (u : String → Option String)
    (hstable : ∀ s t, u s = some t → u t = some t)
    (B : Attrs)
    (herr : (normalize u B).2 = [])
    (hopt : ∀ f ∈ [authorField, articleTitleField, bodyField],
      ∀ s, getAttr B f.name = JsValue.vStr s → s ≠ "" → jsTrim s ≠ "") :
    (normalize u ((normalize u B).1.attributes)).1 = (normalize u B).1 := by
  have hunf : ∀ X : Attrs, normResult u X =
      (processField u X (processField u X (processField u X (processField u X
        (processField u X (processField u X (initResult, []) quoteTextField)
          authorField) urlField) articleTitleField) tagsField) bodyField).1 :=
    fun X => rfl
  have h0 : (normalize u B).2 = (schema.map (fieldErrors u B)).flatten := by
    unfold normalize
    simp only
    rw [foldl_processField_errors]
    simp
  have hflat : (schema.map (fieldErrors u B)).flatten = [] := h0.symm.trans herr
  have hsplit : fieldErrors u B quoteTextField ++ (fieldErrors u B authorField ++
      (fieldErrors u B urlField ++ (fieldErrors u B articleTitleField ++
      (fieldErrors u B tagsField ++ fieldErrors u B bodyField)))) = [] := by
    simpa [schema] using hflat
  simp only [List.append_eq_nil] at hsplit
  obtain ⟨he1, he2, he3, he4, he5, he6⟩ := hsplit
  have hsame_qt : ∀ st : Attrs × List String,
      getAttr (processField u B st quoteTextField).1 "quote_text" =
        (fieldStore u B quoteTextField).getD (getAttr st.1 "quote_text") :=
    fun st => getAttr_processField_same u B st quoteTextField
  have hsame_author : ∀ st : Attrs × List String,
      getAttr (processField u B st authorField).1 "author" =
        (fieldStore u B authorField).getD (getAttr st.1 "author") :=
    fun st => getAttr_processField_same u B st authorField
  have hsame_url : ∀ st : Attrs × List String,
      getAttr (processField u B st urlField).1 "url" =
        (fieldStore u B urlField).getD (getAttr st.1 "url") :=
    fun st => getAttr_processField_same u B st urlField
  have hsame_at : ∀ st : Attrs × List String,
      getAttr (processField u B st articleTitleField).1 "article_title" =
        (fieldStore u B articleTitleField).getD (getAttr st.1 "article_title") :=
    fun st => getAttr_processField_same u B st articleTitleField
  have hsame_tags : ∀ st : Attrs × List String,
      getAttr (processField u B st tagsField).1 "tags" =
        (fieldStore u B tagsField).getD (getAttr st.1 "tags") :=
    fun st => getAttr_processField_same u B st tagsField
  have hsame_body : ∀ st : Attrs × List String,
      getAttr (processField u B st bodyField).1 "body" =
        (fieldStore u B bodyField).getD (getAttr st.1 "body") :=
    fun st => getAttr_processField_same u B st bodyField
  have hA1 : getAttr (normResult u B) "quote_text" =
      (fieldStore u B quoteTextField).getD (getAttr initResult "quote_text") := by
    rw [hunf B,
      getAttr_processField_other u B _ bodyField "quote_text" (by decide),
      getAttr_processField_other u B _ tagsField "quote_text" (by decide),
      getAttr_processField_other u B _ articleTitleField "quote_text" (by decide),
      getAttr_processField_other u B _ urlField "quote_text" (by decide),
      getAttr_processField_other u B _ authorField "quote_text" (by decide),
      hsame_qt]
  have hA2 : getAttr (normResult u B) "author" =
      (fieldStore u B authorField).getD (getAttr initResult "author") := by
    rw [hunf B,
      getAttr_processField_other u B _ bodyField "author" (by decide),
      getAttr_processField_other u B _ tagsField "author" (by decide),
      getAttr_processField_other u B _ articleTitleField "author" (by decide),
      getAttr_processField_other u B _ urlField "author" (by decide),
      hsame_author,
      getAttr_processField_other u B _ quoteTextField "author" (by decide)]
  have hA3 : getAttr (normResult u B) "url" =
      (fieldStore u B urlField).getD (getAttr initResult "url") := by
    rw [hunf B,
      getAttr_processField_other u B _ bodyField "url" (by decide),
      getAttr_processField_other u B _ tagsField "url" (by decide),
      getAttr_processField_other u B _ articleTitleField "url" (by decide),
      hsame_url,
      getAttr_processField_other u B _ authorField "url" (by decide),
      getAttr_processField_other u B _ quoteTextField "url" (by decide)]
  have hA4 : getAttr (normResult u B) "article_title" =
      (fieldStore u B articleTitleField).getD (getAttr initResult "article_title") := by
    rw [hunf B,
      getAttr_processField_other u B _ bodyField "article_title" (by decide),
      getAttr_processField_other u B _ tagsField "article_title" (by decide),
      hsame_at,
      getAttr_processField_other u B _ urlField "article_title" (by decide),
      getAttr_processField_other u B _ authorField "article_title" (by decide),
      getAttr_processField_other u B _ quoteTextField "article_title" (by decide)]
  have hA5 : getAttr (normResult u B) "tags" =
      (fieldStore u B tagsField).getD (getAttr initResult "tags") := by
    rw [hunf B,
      getAttr_processField_other u B _ bodyField "tags" (by decide),
      hsame_tags,
      getAttr_processField_other u B _ articleTitleField "tags" (by decide),
      getAttr_processField_other u B _ urlField "tags" (by decide),
      getAttr_processField_other u B _ authorField "tags" (by decide),
      getAttr_processField_other u B _ quoteTextField "tags" (by decide)]
  have hA6 : getAttr (normResult u B) "body" =
      (fieldStore u B bodyField).getD (getAttr initResult "body") := by
    rw [hunf B,
      hsame_body,
      getAttr_processField_other u B _ tagsField "body" (by decide),
      getAttr_processField_other u B _ articleTitleField "body" (by decide),
      getAttr_processField_other u B _ urlField "body" (by decide),
      getAttr_processField_other u B _ authorField "body" (by decide),
      getAttr_processField_other u B _ quoteTextField "body" (by decide)]
  have hcur_author : getAttr (processField u B (initResult, []) quoteTextField).1 "author" =
      getAttr initResult "author" := by
    rw [getAttr_processField_other u B _ quoteTextField "author" (by decide)]
  have hcur_url : getAttr (processField u B (processField u B (initResult, [])
      quoteTextField) authorField).1 "url" = getAttr initResult "url" := by
    rw [getAttr_processField_other u B _ authorField "url" (by decide),
      getAttr_processField_other u B _ quoteTextField "url" (by decide)]
  have hcur_at : getAttr (processField u B (processField u B (processField u B
      (initResult, []) quoteTextField) authorField) urlField).1 "article_title" =
      getAttr initResult "article_title" := by
    rw [getAttr_processField_other u B _ urlField "article_title" (by decide),
      getAttr_processField_other u B _ authorField "article_title" (by decide),
      getAttr_processField_other u B _ quoteTextField "article_title" (by decide)]
  have hcur_body : getAttr (processField u B (processField u B (processField u B
      (processField u B (processField u B (initResult, []) quoteTextField)
        authorField) urlField) articleTitleField) tagsField).1 "body" =
      getAttr initResult "body" := by
    rw [getAttr_processField_other u B _ tagsField "body" (by decide),
      getAttr_processField_other u B _ articleTitleField "body" (by decide),
      getAttr_processField_other u B _ urlField "body" (by decide),
      getAttr_processField_other u B _ authorField "body" (by decide),
      getAttr_processField_other u B _ quoteTextField "body" (by decide)]
  have s1 : (processField u (normResult u B) (initResult, []) quoteTextField).1 =
      (processField u B (initResult, []) quoteTextField).1 :=
    processField_string_second u B (normResult u B) (initResult, []) (initResult, [])
      quoteTextField rfl rfl he1 hA1 rfl (fun _ _ _ _ => rfl) (Or.inl rfl)
  have s2 : (processField u (normResult u B) (processField u (normResult u B)
      (initResult, []) quoteTextField) authorField).1 =
      (processField u B (processField u B (initResult, []) quoteTextField)
        authorField).1 :=
    processField_string_second u B (normResult u B)
      (processField u B (initResult, []) quoteTextField)
      (processField u (normResult u B) (initResult, []) quoteTextField)
      authorField rfl s1 he2 hA2 hcur_author
      (fun s hv hs ht => absurd ht (hopt authorField (by simp) s hv hs))
      (Or.inr (by decide))
  have s3 : (processField u (normResult u B) (processField u (normResult u B)
      (processField u (normResult u B) (initResult, []) quoteTextField)
        authorField) urlField).1 =
      (processField u B (processField u B (processField u B (initResult, [])
        quoteTextField) authorField) urlField).1 :=
    processField_url_second u B (normResult u B)
      (processField u B (processField u B (initResult, []) quoteTextField) authorField)
      (processField u (normResult u B) (processField u (normResult u B)
        (initResult, []) quoteTextField) authorField)
      urlField rfl hstable s2 he3 hA3 hcur_url (by decide)
  have s4 : (processField u (normResult u B) (processField u (normResult u B)
      (processField u (normResult u B) (processField u (normResult u B)
        (initResult, []) quoteTextField) authorField) urlField)
        articleTitleField).1 =
      (processField u B (processField u B (processField u B (processField u B
        (initResult, []) quoteTextField) authorField) urlField)
        articleTitleField).1 :=
    processField_string_second u B (normResult u B)
      (processField u B (processField u B (processField u B (initResult, [])
        quoteTextField) authorField) urlField)
      (processField u (normResult u B) (processField u (normResult u B)
        (processField u (normResult u B) (initResult, []) quoteTextField)
          authorField) urlField)
      articleTitleField rfl s3 he4 hA4 hcur_at
      (fun s hv hs ht => absurd ht (hopt articleTitleField (by simp) s hv hs))
      (Or.inr (by decide))
  have s5 : (processField u (normResult u B) (processField u (normResult u B)
      (processField u (normResult u B) (processField u (normResult u B)
        (processField u (normResult u B) (initResult, []) quoteTextField)
          authorField) urlField) articleTitleField) tagsField).1 =
      (processField u B (processField u B (processField u B (processField u B
        (processField u B (initResult, []) quoteTextField) authorField)
          urlField) articleTitleField) tagsField).1 :=
    processField_strArr_second u B (normResult u B)
      (processField u B (processField u B (processField u B (processField u B
        (initResult, []) quoteTextField) authorField) urlField) articleTitleField)
      (processField u (normResult u B) (processField u (normResult u B)
        (processField u (normResult u B) (processField u (normResult u B)
          (initResult, []) quoteTextField) authorField) urlField) articleTitleField)
      tagsField rfl s4 he5 hA5 (by decide)
  have s6 : (processField u (normResult u B) (processField u (normResult u B)
      (processField u (normResult u B) (processField u (normResult u B)
        (processField u (normResult u B) (processField u (normResult u B)
          (initResult, []) quoteTextField) authorField) urlField)
            articleTitleField) tagsField) bodyField).1 =
      (processField u B (processField u B (processField u B (processField u B
        (processField u B (processField u B (initResult, []) quoteTextField)
          authorField) urlField) articleTitleField) tagsField) bodyField).1 :=
    processField_string_second u B (normResult u B)
      (processField u B (processField u B (processField u B (processField u B
        (processField u B (initResult, []) quoteTextField) authorField)
          urlField) articleTitleField) tagsField)
      (processField u (normResult u B) (processField u (normResult u B)
        (processField u (normResult u B) (processField u (normResult u B)
          (processField u (normResult u B) (initResult, []) quoteTextField)
            authorField) urlField) articleTitleField) tagsField)
      bodyField rfl s5 he6 hA6 hcur_body
      (fun s hv hs ht => absurd ht (hopt bodyField (by simp) s hv hs))
      (Or.inr (by decide))
  have hattr : (normalize u B).1.attributes = normResult u B := rfl
  rw [hattr]
  apply normalize_fst_congr
  calc normResult u (normResult u B)
      = (processField u (normResult u B) (processField u (normResult u B)
        (processField u (normResult u B) (processField u (normResult u B)
          (processField u (normResult u B) (processField u (normResult u B)
            (initResult, []) quoteTextField) authorField) urlField)
              articleTitleField) tagsField) bodyField).1 := hunf (normResult u B)
    _ = (processField u B (processField u B (processField u B (processField u B
        (processField u B (processField u B (initResult, []) quoteTextField)
          authorField) urlField) articleTitleField) tagsField) bodyField).1 := s6
    _ = normResult u B := (hunf B).symm

/-- Witness for `normalize_idempotent_amended` at a concrete accepted
input (URL already canonical, so the identity parser matches the WHATWG
behavior on every string reached). -/
theorem normalize_idempotent_amended_witness :
    (normalize Option.some
      ((normalize Option.some
        [("quote_text", JsValue.vStr "hello"),
         ("url", JsValue.vStr "https://example.com/")]).1.attributes)).1 =
      (normalize Option.some
        [("quote_text", JsValue.vStr "hello"),
         ("url", JsValue.vStr "https://example.com/")]).1 :=
  normalize_idempotent_amended Option.some
    (fun _ _ _ => rfl)
    [("quote_text", JsValue.vStr "hello"), ("url", JsValue.vStr "https://example.com/")]
    (by decide)
    (by
      intro f hf s hv hs
      exfalso
      fin_cases hf <;>
        simp [getAttr, List.find?, authorField, articleTitleField, bodyField] at hv)

/-! Card text fitting (`src/render/quote.tsx`).  Every numeric constant
of the source is an integer multiple of 1/100, so widths and heights are
represented exactly in fixed-point hundredths of a pixel over ℤ (a pure
scaling by 100 of the source arithmetic; the JS doubles agree on every
comparison made here, as the margins far exceed double rounding error).
The `_RATIO` constants of the source carry a `_CENTI` suffix here. -/

def CARD_WIDTH : ℤ := 1200

def CARD_HEIGHT : ℤ := 628

def CARD_PADDING_X : ℤ := 150

def CARD_PADDING_Y : ℤ := 120

def QUOTE_FONT_MAX : ℤ := 72

def QUOTE_FONT_MIN : ℤ := 36

/-- `QUOTE_LINE_HEIGHT = 1.32`, in hundredths. -/
def QUOTE_LINE_HEIGHT_CENTI : ℤ := 132

/-- `SPACE_WIDTH` factor `0.35`, in hundredths. -/
def SPACE_WIDTH_CENTI : ℤ := 35

/-- `CHAR_WIDTH` factor `0.6`, in hundredths. -/
def CHAR_WIDTH_CENTI : ℤ := 60

/-- `WIDE_CHAR_BONUS` factor `0.08`, in hundredths. -/
def WIDE_CHAR_BONUS_CENTI : ℤ := 8

/-- The narrow-character rebate literal `0.04`, in hundredths. -/
def NARROW_CHAR_REBATE_CENTI : ℤ := 4

/-- The floor literal `0.4`, in hundredths. -/
def MIN_WORD_WIDTH_CENTI : ℤ := 40

/-- `estimateWordWidth`: character count scaled by 0.6, a 0.08 bonus per
wide character, a 0.04 rebate per narrow character, floored at 0.4, all
scaled by the font size.  Result in hundredths of a pixel. -/
def estimateWordWidth (word : List Char) (fontSize : ℤ) : ℤ :=
  if word.length = 0 then 0
  else
    let wideCharacters := (word.filter (fun c => c ∈ ['M', 'W', '@', '#', '&', '$', '%'])).length
    let narrowCharacters := (word.filter (fun c => c ∈ ['i', 'l', '1', '\x27'])).length
    let baseWidth := (word.length : ℤ) * CHAR_WIDTH_CENTI
    let widthAdjust := (wideCharacters : ℤ) * WIDE_CHAR_BONUS_CENTI
      - (narrowCharacters : ℤ) * NARROW_CHAR_REBATE_CENTI
    let estimated := max MIN_WORD_WIDTH_CENTI (baseWidth + widthAdjust)
    estimated * fontSize

/-- `text.split(" ")` over explicit characters: split on every single
space, keeping empty pieces, exactly as the JS `String.prototype.split`
with a plain-string separator. -/
def splitOnSpaceAux : List Char → List Char → List (List Char)
  | acc, [] => [acc.reverse]
  | acc, c :: rest =>
    if c = ' ' then acc.reverse :: splitOnSpaceAux [] rest
    else splitOnSpaceAux (c :: acc) rest

/-- `text.split(" ")`. -/
def splitOnSpace (l : List Char) : List (List Char) :=
  splitOnSpaceAux [] l

/-- Body of the wrap loop of `estimateLineCount`: state is
`(lineWidth, lines)`; an empty word is skipped, a word starts the line
when it is empty, wraps it when it would overflow, and extends it
otherwise.  Widths in hundredths of a pixel. -/
def lineStep (fontSize maxWidth : ℤ) (st : ℤ × Nat) (word : List Char) : ℤ × Nat :=
  if word = [] then st
  else
    let measuredWordWidth := min (estimateWordWidth word fontSize) maxWidth
    let spaceWidth := fontSize * SPACE_WIDTH_CENTI
    if st.1 = 0 then (measuredWordWidth, st.2)
    else if st.1 + spaceWidth + measuredWordWidth > maxWidth then
      (measuredWordWidth, st.2 + 1)
    else (st.1 + spaceWidth + measuredWordWidth, st.2)

/-- `estimateLineCount`: greedy word-wrap simulation; the width of each word
is capped at the box width, words accumulate with a fixed inter-word
space until the line would overflow, then wrap. -/
def estimateLineCount (text : String) (fontSize : ℤ) (maxWidth : ℤ) : Nat :=
  if (splitOnSpace text.toList).length = 0 then 1
  else ((splitOnSpace text.toList).foldl (lineStep fontSize maxWidth)
    ((0 : ℤ), (1 : Nat))).2

/-- `text.replace` of every whitespace run by a single space; the flag
records whether the previous character was part of a run already
replaced. -/
def collapseWsAux : Bool → List Char → List Char
  | _, [] => []
  | prevWs, c :: rest =>
    if isJsWs c then
      if prevWs then collapseWsAux true rest
      else ' ' :: collapseWsAux true rest
    else c :: collapseWsAux false rest

/-- The whitespace-run collapse of `sanitizeText`. -/
def collapseWs (l : List Char) : List Char :=
  collapseWsAux false l

/-- `(text || "").replace` of whitespace runs by single spaces, then
`.trim()`. -/
def sanitizeText (t : String) : String :=
  jsTrim (String.mk (collapseWs t.toList))

/-- The descending candidate sizes of the ladder loop
(`for` from `QUOTE_FONT_MAX` down to `QUOTE_FONT_MIN` in steps of 2). -/
def fontLadder : List ℤ :=
  [72, 70, 68, 66, 64, 62, 60, 58, 56, 54, 52, 50, 48, 46, 44, 42, 40, 38, 36]

/-- Body of the ladder loop: return the first candidate size whose
estimated block height (`lines * size * QUOTE_LINE_HEIGHT`, here in
hundredths) fits the box, else fall back to the minimum size. -/
def firstFit (sanitized : String) (availableWidth availableHeight : ℤ) :
    List ℤ → ℤ
  | [] => QUOTE_FONT_MIN
  | size :: rest =>
    if ((estimateLineCount sanitized size availableWidth : ℤ)) * size * QUOTE_LINE_HEIGHT_CENTI
        ≤ availableHeight then size
    else firstFit sanitized availableWidth availableHeight rest

/-- `calculateQuoteFontSize` (`src/render/quote.tsx`); the local variables
`sanitized` / `availableWidth` / `availableHeight` locals are inlined,
and both box dimensions are scaled to hundredths. -/
def calculateQuoteFontSize (text : String) : ℤ :=
  if sanitizeText text = "" then QUOTE_FONT_MAX
  else firstFit (sanitizeText text) ((CARD_WIDTH - CARD_PADDING_X * 2) * 100)
    ((CARD_HEIGHT - CARD_PADDING_Y * 2) * 100) fontLadder

/-- C7 counterexample: a strictly longer text can select a strictly
larger font size.  Five 21-character words wrap to five lines and fit
only at size 58, while a single 110-character word — one character longer
in total — is width-capped to a single line and takes the maximum size
72. -/
theorem calculateQuoteFontSize_not_length_monotone :
    (String.mk (List.replicate 110 'a')).length >
      (String.intercalate " "
        (List.replicate 5 (String.mk (List.replicate 21 'a')))).length ∧
    calculateQuoteFontSize (String.mk (List.replicate 110 'a')) >
      calculateQuoteFontSize (String.intercalate " "
        (List.replicate 5 (String.mk (List.replicate 21 'a')))) := by
  constructor
  · decide
  · decide

theorem lineStep_snd_le (fontSize maxWidth : ℤ) (st : ℤ × Nat) (word : List Char) :
    st.2 ≤ (lineStep fontSize maxWidth st word).2 := by
  unfold lineStep
  split
  · exact le_refl _
  · simp only
    split
    · exact le_refl _
    · split
      · exact Nat.le_succ _
      · exact le_refl _

/-- Wrapped line counts never fall below one. -/
theorem estimateLineCount_ge_one (text : String) (fontSize maxWidth : ℤ) :
    1 ≤ estimateLineCount text fontSize maxWidth := by
  unfold estimateLineCount
  split
  · exact le_refl 1
  · have hmono : ∀ (ws : List (List Char)) (st : ℤ × Nat),
        st.2 ≤ (ws.foldl (lineStep fontSize maxWidth) st).2 := by
      intro ws
      induction ws with
      | nil => intro st; exact le_refl _
      | cons w ws ih =>
        intro st
        exact le_trans (lineStep_snd_le fontSize maxWidth st w) (ih _)
    exact hmono _ ((0 : ℤ), (1 : Nat))

theorem estimateLineCount_empty (fontSize maxWidth : ℤ) :
    estimateLineCount "" fontSize maxWidth = 1 := rfl

/-- The ladder loop never returns more than any bound dominating its
candidates and the fallback. -/
theorem firstFit_le (s : String) (aw ah b : ℤ) (l : List ℤ)
    (hb : ∀ x ∈ l, x ≤ b) (hmin : QUOTE_FONT_MIN ≤ b) :
    firstFit s aw ah l ≤ b := by
  induction l with
  | nil => exact hmin
  | cons size rest ih =>
    unfold firstFit
    split
    · exact hb size (List.mem_cons_self _ _)
    · exact ih (fun x hx => hb x (List.mem_cons_of_mem _ hx))

/-- Core ladder monotonicity: if one text needs at least as many lines as
another at every candidate size, the loop never gives it a larger size. -/
theorem firstFit_mono (s1 s2 : String) (aw ah : ℤ) (l : List ℤ)
    (hpos : ∀ x ∈ l, 0 ≤ x)
    (hdesc : List.Pairwise (fun a b => b ≤ a) l)
    (hmin : ∀ x ∈ l, QUOTE_FONT_MIN ≤ x)
    (h : ∀ size ∈ l, estimateLineCount s1 size aw ≤ estimateLineCount s2 size aw) :
    firstFit s2 aw ah l ≤ firstFit s1 aw ah l := by
  induction l with
  | nil => exact le_refl _
  | cons size rest ih =>
    unfold firstFit
    by_cases h2 : ((estimateLineCount s2 size aw : ℤ)) * size * QUOTE_LINE_HEIGHT_CENTI ≤ ah
    · have h1 : ((estimateLineCount s1 size aw : ℤ)) * size * QUOTE_LINE_HEIGHT_CENTI ≤ ah := by
        refine le_trans ?_ h2
        have hc : ((estimateLineCount s1 size aw : ℤ)) ≤ (estimateLineCount s2 size aw : ℤ) := by
          exact_mod_cast h size (List.mem_cons_self _ _)
        have hnn : 0 ≤ size * QUOTE_LINE_HEIGHT_CENTI := by
          have := hpos size (List.mem_cons_self _ _)
          have hlh : (0 : ℤ) ≤ QUOTE_LINE_HEIGHT_CENTI := by norm_num [QUOTE_LINE_HEIGHT_CENTI]
          exact mul_nonneg this hlh
        calc (estimateLineCount s1 size aw : ℤ) * size * QUOTE_LINE_HEIGHT_CENTI
            = (estimateLineCount s1 size aw : ℤ) * (size * QUOTE_LINE_HEIGHT_CENTI) := by ring
          _ ≤ (estimateLineCount s2 size aw : ℤ) * (size * QUOTE_LINE_HEIGHT_CENTI) :=
              mul_le_mul_of_nonneg_right hc hnn
          _ = (estimateLineCount s2 size aw : ℤ) * size * QUOTE_LINE_HEIGHT_CENTI := by ring
      rw [if_pos h1, if_pos h2]
    · rw [if_neg h2]
      have hrest_le : firstFit s2 aw ah rest ≤ size := by
        refine firstFit_le s2 aw ah size rest ?_ (hmin size (List.mem_cons_self _ _))
        intro x hx
        exact (List.pairwise_cons.mp hdesc).1 x hx
      split
      · exact hrest_le
      · exact ih (fun x hx => hpos x (List.mem_cons_of_mem _ hx))
          (List.pairwise_cons.mp hdesc).2
          (fun x hx => hmin x (List.mem_cons_of_mem _ hx))
          (fun x hx => h x (List.mem_cons_of_mem _ hx))

/-- C7 amended: for the fixed card canvas, font-size selection is
monotone in estimated layout demand, not in raw text length: whenever one
text needs at least as many estimated wrapped lines as another at every
candidate size of the ladder, the more line-hungry text never receives a
strictly larger font size.  (Raw length monotonicity fails — see the
counterexample — because a single long word is width-capped to one
line.) -/
theorem calculateQuoteFontSize_monotone_in_lines (t1 t2 : String)
    (h : ∀ size ∈ fontLadder,
      estimateLineCount (sanitizeText t1) size ((CARD_WIDTH - CARD_PADDING_X * 2) * 100) ≤
        estimateLineCount (sanitizeText t2) size ((CARD_WIDTH - CARD_PADDING_X * 2) * 100)) :
    calculateQuoteFontSize t2 ≤ calculateQuoteFontSize t1 := by
  unfold calculateQuoteFontSize
  by_cases h1 : sanitizeText t1 = ""
  · rw [if_pos h1]
    by_cases h2 : sanitizeText t2 = ""
    · rw [if_pos h2]
    · rw [if_neg h2]
      refine firstFit_le _ _ _ QUOTE_FONT_MAX fontLadder ?_ ?_
      · intro x hx
        fin_cases hx <;> norm_num [QUOTE_FONT_MAX]
      · norm_num [QUOTE_FONT_MIN, QUOTE_FONT_MAX]
  · rw [if_neg h1]
    by_cases h2 : sanitizeText t2 = ""
    · -- the second text is empty, hence one line everywhere; the first
      -- then also needs exactly one line and fits at the maximum size
      rw [if_pos h2]
      have hone : estimateLineCount (sanitizeText t1) 72
          ((CARD_WIDTH - CARD_PADDING_X * 2) * 100) = 1 := by
        have hle := h 72 (by norm_num [fontLadder])
        rw [h2, estimateLineCount_empty] at hle
        have hge := estimateLineCount_ge_one (sanitizeText t1) 72
          ((CARD_WIDTH - CARD_PADDING_X * 2) * 100)
        omega
      show QUOTE_FONT_MAX ≤ firstFit (sanitizeText t1) _ _ fontLadder
      unfold fontLadder firstFit
      rw [hone]
      norm_num [QUOTE_LINE_HEIGHT_CENTI, CARD_HEIGHT, CARD_PADDING_Y, QUOTE_FONT_MAX]
    · rw [if_neg h2]
      refine firstFit_mono _ _ _ _ fontLadder ?_ ?_ ?_ h
      · intro x hx
        fin_cases hx <;> norm_num
      · unfold fontLadder
        norm_num
      · intro x hx
        fin_cases hx <;> norm_num [QUOTE_FONT_MIN]

/-- Witness for `calculateQuoteFontSize_monotone_in_lines`: a one-word
text versus a five-line text. -/
theorem calculateQuoteFontSize_monotone_in_lines_witness :
    calculateQuoteFontSize (String.intercalate " "
        (List.replicate 5 (String.mk (List.replicate 21 'a')))) ≤
      calculateQuoteFontSize "a" :=
  calculateQuoteFontSize_monotone_in_lines "a"
    (String.intercalate " " (List.replicate 5 (String.mk (List.replicate 21 'a'))))
    (by decide)

/-! Feed publisher (`src/lib/rss.ts`) and the quote `renderRssItem`. -/

/-- Feed entry data returned by a type definition `renderRssItem`
hook. -/
structure RssItemData where
  id : String
  title : String
  url : String
  summary : String
  publishedAt : Option Nat
deriving DecidableEq, Repr

/-- The quote type `renderRssItem` (`src/types/quote.ts`): identifier and
link are the quote URL, the summary is the quote text, and `publishedAt`
is `new Date()` — the moment the feed is being regenerated, made explicit
as `now`. -/
def renderRssItem (now : Nat) (payload : NormalizedPayloadQ) : RssItemData :=
  { id := strValue (getAttr payload.attributes "url"),
    title := payload.title,
    url := strValue (getAttr payload.attributes "url"),
    summary := strValue (getAttr payload.attributes "quote_text"),
    publishedAt := some now }

/-- The `pubDate` computed for one feed entry by `regenerateFeedsForType`
(`src/lib/rss.ts`):
`(rss.publishedAt ?? new Date(item.renderedAt ?? item.updatedAt))`.
Times are in the Nat model; `toUTCString` is an injective formatting step
and omitted. -/
def feedItemPubDate (now : Nat) (item : ItemRecord)
    (payload : NormalizedPayloadQ) : Nat :=
  match (renderRssItem now payload).publishedAt with
  | some d => d
  | none => item.rendered_at.getD item.updated_at

/-- C8 counterexample: the quote type always supplies
`publishedAt = new Date()`, so the entry's `pubDate` is the feed
*generation* time, never the item's render time: on an item rendered at
time 10, regenerating the feed at time 99 stamps 99, not 10. -/
theorem feedItemPubDate_is_generation_time :
    feedItemPubDate 99 sampleRenderedItem
        { attributes := [("quote_text", JsValue.vStr "Hello"),
            ("url", JsValue.vStr "https://example.com/")],
          title := "Hello", sourceUrl := "https://example.com/", tags := [] } = 99 ∧
    sampleRenderedItem.rendered_at = some 10 ∧ (99 : Nat) ≠ 10 := by decide

/-- C8 amended: a feed entry's `pubDate` is the `publishedAt` supplied by
the type definition `renderRssItem` hook when present — for the quote
type that is always the feed-generation time — and only falls back to the
item's render time and then its last-update time when the hook leaves
`publishedAt` unset, which the quote type never does. -/
theorem feedItemPubDate_spec (now : Nat) (item : ItemRecord)
    (payload : NormalizedPayloadQ) :
    feedItemPubDate now item payload = now ∧
    (renderRssItem now payload).publishedAt = some now := by
  constructor
  · rfl
  · rfl

/-! `listItems` (`src/lib/items-repo.ts`) and the SQLite LIKE semantics
of its tag clause. -/

/-- Default SQLite `LIKE` case folding: ASCII letters compare
case-insensitively, every other character literally. -/
def likeFold (c : Char) : Char := c.toLower

/-- SQLite `LIKE` matching: `%` matches any (possibly empty) run — the
rest of the pattern must match some suffix — `_` matches any single
character, and everything else matches up to ASCII case. -/
def likeMatch : List Char → List Char → Bool
  | [], s => s.isEmpty
  | p :: ps, s =>
    if p = '%' then
      (s.tails).any (fun s2 => likeMatch ps s2)
    else
      match s with
      | [] => false
      | c :: s' => (p == '_' || likeFold p == likeFold c) && likeMatch ps s'

/-- The pattern `%"tag"%` bound by `listItems` for the tag clause. -/
def tagLikePattern (tag : String) : List Char :=
  '%' :: '"' :: (tag.toList ++ ['"', '%'])

/-- The clause `tags LIKE '%"tag"%'`; a NULL `tags` column never
matches. -/
def tagClause (tag : String) (r : ItemRecord) : Bool :=
  match r.tags with
  | some raw => likeMatch (tagLikePattern tag) raw.toList
  | none => false

/-- Options of `listItems`, mirroring `ListItemsOptions`. -/
structure ListItemsOptions where
  type : Option String
  limit : Option Nat
  cursor : Option String
  tag : Option String
deriving Repr

/-- One WHERE clause conjunction of `listItems`: each clause is added
only when its option is truthy (absent or `""` adds nothing); the cursor
clause compares against the scalar subquery
`(SELECT created_at FROM items WHERE id = ?)`, which is NULL — matching
no row — when the cursor id does not exist. -/
def listWhere (opts : ListItemsOptions) (s : Store) (r : ItemRecord) : Bool :=
  (match opts.type with
   | some t => t == "" || r.type == t
   | none => true) &&
  (match opts.cursor with
   | some c => c == "" ||
      (match s.find? (fun x => x.id == c) with
       | some x => decide (r.created_at < x.created_at)
       | none => false)
   | none => true) &&
  (match opts.tag with
   | some t => t == "" || tagClause t r
   | none => true)

/-- Stable insertion of a row into a list sorted by `created_at`
descending. -/
def insertDesc (r : ItemRecord) : List ItemRecord → List ItemRecord
  | [] => [r]
  | x :: xs =>
    if r.created_at ≤ x.created_at then x :: insertDesc r xs
    else r :: x :: xs

/-- `ORDER BY created_at DESC` as a stable insertion sort. -/
def sortByCreatedDesc (l : List ItemRecord) : List ItemRecord :=
  l.foldr insertDesc []

/-- `listItems` (`src/lib/items-repo.ts`): WHERE clauses for truthy
options, `ORDER BY created_at DESC`, `LIMIT (options.limit ?? 20)`. -/
def listItems (opts : ListItemsOptions) (s : Store) : List ItemRecord :=
  (sortByCreatedDesc (s.filter (listWhere opts s))).take (opts.limit.getD 20)

theorem likeMatch_nil (s : List Char) : likeMatch [] s = true ↔ s = [] := by
  simp [likeMatch, List.isEmpty_iff]

theorem likeMatch_percent (ps : List Char) (s : List Char) :
    likeMatch ('%' :: ps) s = true ↔ ∃ s2, s2 <:+ s ∧ likeMatch ps s2 = true := by
  have h : likeMatch ('%' :: ps) s = (s.tails).any (fun s2 => likeMatch ps s2) := by
    simp [likeMatch]
  rw [h, List.any_eq_true]
  constructor
  · rintro ⟨s2, hmem, hm⟩
    exact ⟨s2, (List.mem_tails _ _).mp hmem, hm⟩
  · rintro ⟨s2, hsuff, hm⟩
    exact ⟨s2, (List.mem_tails _ _).mpr hsuff, hm⟩

theorem likeMatch_percent_nil (s : List Char) : likeMatch ['%'] s = true := by
  rw [likeMatch_percent]
  exact ⟨[], List.nil_suffix, by simp [likeMatch]⟩

theorem likeMatch_plain_append (m : List Char) (hm : '%' ∉ m ∧ '_' ∉ m) (ps : List Char) :
    ∀ s, likeMatch (m ++ ps) s = true ↔
      ∃ s1 s2, s = s1 ++ s2 ∧ s1.map likeFold = m.map likeFold ∧
        likeMatch ps s2 = true := by
  induction m with
  | nil =>
    intro s
    constructor
    · intro h
      exact ⟨[], s, rfl, rfl, h⟩
    · rintro ⟨s1, s2, rfl, h1, h2⟩
      have hnil : s1 = [] := by
        cases s1 with
        | nil => rfl
        | cons a b => simp at h1
      subst hnil
      simpa using h2
  | cons p m' ih =>
    intro s
    have hp1 : p ≠ '%' := fun h => hm.1 (h ▸ List.mem_cons_self p m')
    have hp2 : (p == '_') = false :=
      beq_eq_false_iff_ne.mpr (fun h => hm.2 (h ▸ List.mem_cons_self p m'))
    have hm' : '%' ∉ m' ∧ '_' ∉ m' :=
      ⟨fun h => hm.1 (List.mem_cons_of_mem _ h), fun h => hm.2 (List.mem_cons_of_mem _ h)⟩
    constructor
    · intro h
      cases s with
      | nil => simp [likeMatch, hp1] at h
      | cons c s' =>
        have hh : ((p == '_' || likeFold p == likeFold c) &&
            likeMatch (m' ++ ps) s') = true := by
          simpa [likeMatch, hp1] using h
        rw [Bool.and_eq_true, Bool.or_eq_true, hp2] at hh
        obtain ⟨hfold, hrest⟩ := hh
        have hfold' : likeFold p = likeFold c := by
          rcases hfold with hfalse | htrue
          · simp at hfalse
          · exact beq_iff_eq.mp htrue
        obtain ⟨s1, s2, rfl, hmap, hps⟩ := (ih hm' s').mp hrest
        exact ⟨c :: s1, s2, rfl, by simp [hmap, hfold'.symm], hps⟩
    · rintro ⟨s1, s2, rfl, hmap, hps⟩
      cases s1 with
      | nil => simp at hmap
      | cons c s1' =>
        simp only [List.map_cons, List.cons.injEq] at hmap
        obtain ⟨hfold, hmap'⟩ := hmap
        have : likeMatch (m' ++ ps) (s1' ++ s2) = true :=
          (ih hm' (s1' ++ s2)).mpr ⟨s1', s2, rfl, hmap', hps⟩
        simp [likeMatch, hp1, this, hfold, beq_iff_eq]

/-- LIKE with a `%`-bracketed wildcard-free middle is case-folded
substring containment. -/
theorem likeContains (m : List Char) (hm : '%' ∉ m ∧ '_' ∉ m) (s : List Char) :
    likeMatch ('%' :: (m ++ ['%'])) s = true ↔
      ∃ s1 s2 s3, s = s1 ++ s2 ++ s3 ∧ s2.map likeFold = m.map likeFold := by
  rw [likeMatch_percent]
  constructor
  · rintro ⟨tl, hsuff, hmatch⟩
    rw [likeMatch_plain_append m hm ['%'] tl] at hmatch
    obtain ⟨s2, s3, rfl, hmap, -⟩ := hmatch
    obtain ⟨s1, rfl⟩ := hsuff
    exact ⟨s1, s2, s3, (List.append_assoc s1 s2 s3).symm, hmap⟩
  · rintro ⟨s1, s2, s3, rfl, hmap⟩
    refine ⟨s2 ++ s3, ⟨s1, (List.append_assoc s1 s2 s3).symm⟩, ?_⟩
    rw [likeMatch_plain_append m hm ['%'] (s2 ++ s3)]
    exact ⟨s2, s3, rfl, hmap, likeMatch_percent_nil s3⟩

/-- Characters allowed in a "simple" tag: lowercase ASCII letters,
digits and hyphen — no LIKE wildcards, no JSON structural or escaped
characters, and fixed under ASCII case folding. -/
def simpleTagChars : List Char := "abcdefghijklmnopqrstuvwxyz0123456789-".toList

def simpleTagChar (c : Char) : Bool := c ∈ simpleTagChars

/-- A nonempty tag of simple characters. -/
def simpleTag (t : String) : Bool :=
  decide (t ≠ "") && t.toList.all simpleTagChar

theorem simpleTagChar_fold {c : Char} (h : simpleTagChar c = true) :
    likeFold c = c := by
  have hc : c ∈ simpleTagChars := by simpa [simpleTagChar] using h
  fin_cases hc <;> decide

theorem simpleTagChar_ne {c : Char} (h : simpleTagChar c = true) :
    c ≠ '%' ∧ c ≠ '_' ∧ c ≠ '"' ∧ c ≠ ',' ∧ c ≠ '\\' ∧
      c ≠ '[' ∧ c ≠ ']' ∧ c ≠ '\n' ∧ c ≠ '\t' ∧ c ≠ '\r' := by
  have hc : c ∈ simpleTagChars := by simpa [simpleTagChar] using h
  fin_cases hc <;> decide

theorem escFlatten (l : List Char) (h : ∀ c ∈ l, simpleTagChar c = true) :
    (l.map jsonEscapeChar).flatten = l := by
  induction l with
  | nil => rfl
  | cons c rest ih =>
    simp only [List.map_cons, List.flatten_cons]
    obtain ⟨-, -, h3, -, h5, -, -, h8, h9, h10⟩ :=
      simpleTagChar_ne (h c (List.mem_cons_self _ _))
    have hesc : jsonEscapeChar c = [c] := by
      unfold jsonEscapeChar
      rw [if_neg h3, if_neg h5, if_neg h8, if_neg h9, if_neg h10]
    rw [hesc, ih (fun x hx => h x (List.mem_cons_of_mem _ hx))]
    rfl

/-- Unified equation for the inner serialization of a nonempty list. -/
theorem serTagsInner_cons (x : String) (rest : List String) :
    serTagsInner (x :: rest) = '"' :: (x.toList.map jsonEscapeChar).flatten
      ++ '"' :: (match rest with
        | [] => []
        | _ :: _ => ',' :: serTagsInner rest) := by
  cases rest <;> simp [serTagsInner]

/-- A match starting with a quote cannot start inside quote-free
material. -/
theorem infix_skip_front {m y tail : List Char}
    (hhead : ∃ ms, m = '"' :: ms) (hy : ∀ a ∈ y, a ≠ '"') :
    m <:+: y ++ tail ↔ m <:+: tail := by
  induction y with
  | nil => simp
  | cons a y' ih =>
    constructor
    · intro h
      rcases List.infix_cons_iff.mp h with hpre | hinf
      · exfalso
        obtain ⟨ms, rfl⟩ := hhead
        have := (List.cons_prefix_cons.mp hpre).1
        exact hy a (List.mem_cons_self _ _) this.symm
      · exact (ih (fun b hb => hy b (List.mem_cons_of_mem _ hb))).mp hinf
    · intro h
      obtain ⟨pre, post, rfl⟩ := h
      exact ⟨(a :: y') ++ pre, post, by simp⟩

/-- A match ending with a quote cannot end on the closing bracket. -/
theorem infix_strip_last {m inner : List Char}
    (hlast : ∃ ms, m.reverse = '"' :: ms) :
    m <:+: inner ++ [']'] ↔ m <:+: inner := by
  constructor
  · intro h
    have h1 : m.reverse <:+: (inner ++ [']']).reverse := List.reverse_infix.mpr h
    rw [List.reverse_append] at h1
    have h2 : m.reverse <:+: inner.reverse := by
      rcases List.infix_cons_iff.mp h1 with hpre | hinf
      · exfalso
        obtain ⟨ms, hms⟩ := hlast
        rw [hms] at hpre
        exact absurd (List.cons_prefix_cons.mp hpre).1 (by decide)
      · exact hinf
    exact List.reverse_infix.mp h2
  · intro h
    obtain ⟨pre, post, rfl⟩ := h
    exact ⟨pre, post ++ [']'], by simp⟩

/-- Aligned quote-free prefixes before a quote agree. -/
theorem prefix_quote_eq : ∀ (t x tail1 tail2 : List Char),
    (∀ c ∈ t, c ≠ '"') → (∀ c ∈ x, c ≠ '"') →
    t ++ '"' :: tail1 <+: x ++ '"' :: tail2 → t = x := by
  intro t
  induction t with
  | nil =>
    intro x tail1 tail2 _ hx h
    cases x with
    | nil => rfl
    | cons a x' =>
      exfalso
      simp only [List.nil_append, List.cons_append] at h
      exact hx a (List.mem_cons_self _ _) (List.cons_prefix_cons.mp h).1.symm
  | cons c t' ih =>
    intro x tail1 tail2 ht hx h
    cases x with
    | nil =>
      exfalso
      simp only [List.cons_append, List.nil_append] at h
      exact ht c (List.mem_cons_self _ _) (List.cons_prefix_cons.mp h).1
    | cons a x' =>
      simp only [List.cons_append] at h
      obtain ⟨hca, h'⟩ := List.cons_prefix_cons.mp h
      rw [hca, ih x' tail1 tail2 (fun d hd => ht d (List.mem_cons_of_mem _ hd))
        (fun d hd => hx d (List.mem_cons_of_mem _ hd)) h']

/-- Quoted-token containment in the inner serialization is exactly tag
membership, for simple tags. -/
theorem quoted_infix_serInner (t : List Char)
    (htne : t ≠ []) (hts : ∀ c ∈ t, simpleTagChar c = true) :
    ∀ (l : List String), (∀ x ∈ l, simpleTag x = true) →
      (('"' :: t ++ ['"']) <:+: serTagsInner l ↔ ∃ x ∈ l, x.toList = t) := by
  intro l
  induction l with
  | nil =>
    intro _
    simp [serTagsInner]
  | cons x rest ih =>
    intro hl
    have hxs : ∀ c ∈ x.toList, simpleTagChar c = true := by
      have := hl x (List.mem_cons_self _ _)
      unfold simpleTag at this
      rw [Bool.and_eq_true] at this
      exact fun c hc => List.all_eq_true.mp this.2 c hc
    have hex : (x.toList.map jsonEscapeChar).flatten = x.toList := escFlatten _ hxs
    have hxq : ∀ c ∈ x.toList, c ≠ '"' := fun c hc => (simpleTagChar_ne (hxs c hc)).2.2.1
    have htq : ∀ c ∈ t, c ≠ '"' := fun c hc => (simpleTagChar_ne (hts c hc)).2.2.1
    rw [serTagsInner_cons, hex]
    constructor
    · intro h
      rcases List.infix_cons_iff.mp h with hpre | hinf
      · -- the match starts at the head quote: the tags coincide
        simp only [List.cons_append] at hpre
        obtain ⟨-, hp⟩ := List.cons_prefix_cons.mp hpre
        have : t = x.toList := prefix_quote_eq t x.toList _ _ htq hxq hp
        exact ⟨x, List.mem_cons_self _ _, this.symm⟩
      · -- the match lies beyond the first element
        have hinf := (infix_skip_front ⟨t ++ ['"'], rfl⟩ hxq).mp hinf
        rcases List.infix_cons_iff.mp hinf with hpre2 | hinf2
        · exfalso
          obtain ⟨-, hp2⟩ := List.cons_prefix_cons.mp hpre2
          cases rest with
          | nil =>
            simp only at hp2
            have := List.prefix_nil.mp hp2
            simp at this
          | cons r rs =>
            simp only at hp2
            cases t with
            | nil => exact htne rfl
            | cons c t' =>
              simp only [List.cons_append] at hp2
              have := (List.cons_prefix_cons.mp hp2).1
              exact (simpleTagChar_ne (hts c (List.mem_cons_self _ _))).2.2.2.1 this
        · cases rest with
          | nil =>
            simp only at hinf2
            exfalso
            rw [List.infix_nil] at hinf2
            simp at hinf2
          | cons r rs =>
            simp only at hinf2
            rcases List.infix_cons_iff.mp hinf2 with hpre3 | hinf3
            · exfalso
              exact absurd (List.cons_prefix_cons.mp hpre3).1 (by decide)
            · have := (ih (fun y hy => hl y (List.mem_cons_of_mem _ hy))).mp hinf3
              obtain ⟨y, hy, hyt⟩ := this
              exact ⟨y, List.mem_cons_of_mem _ hy, hyt⟩
    · rintro ⟨y, hy, hyt⟩
      cases rest with
      | nil =>
        have hyx : y = x := by
          rcases List.mem_cons.mp hy with rfl | h0
          · rfl
          · simp at h0
        subst hyx
        exact ⟨[], [], by rw [← hyt]; simp⟩
      | cons r rs =>
        rcases List.mem_cons.mp hy with rfl | hyrest
        · exact ⟨[], ',' :: serTagsInner (r :: rs), by rw [← hyt]; simp⟩
        · have hinner := (ih (fun z hz => hl z (List.mem_cons_of_mem _ hz))).mpr
            ⟨y, hyrest, hyt⟩
          obtain ⟨pre, post, heq⟩ := hinner
          exact ⟨'"' :: x.toList ++ '"' :: ',' :: pre, post, by simp [← heq]⟩

theorem serTagsInner_fold {l : List String} (hl : ∀ x ∈ l, simpleTag x = true) :
    ∀ c ∈ serTagsInner l, likeFold c = c := by
  induction l with
  | nil => intro c hc; simp [serTagsInner] at hc
  | cons x rest ih =>
    intro c hc
    have hxs : ∀ d ∈ x.toList, simpleTagChar d = true := by
      have := hl x (List.mem_cons_self _ _)
      unfold simpleTag at this
      rw [Bool.and_eq_true] at this
      exact fun d hd => List.all_eq_true.mp this.2 d hd
    rw [serTagsInner_cons, escFlatten _ hxs] at hc
    rcases List.mem_cons.mp hc with rfl | hc2
    · decide
    · rcases List.mem_append.mp hc2 with hcx | hctail
      · exact simpleTagChar_fold (hxs c hcx)
      · rcases List.mem_cons.mp hctail with rfl | hc3
        · decide
        · cases rest with
          | nil => simp at hc3
          | cons r rs =>
            simp only at hc3
            rcases List.mem_cons.mp hc3 with rfl | hc4
            · decide
            · exact ih (fun y hy => hl y (List.mem_cons_of_mem _ hy)) c hc4

/-- The tag clause of `listItems` holds exactly when the searched tag is
an element of the stored tags array, provided the searched tag and every
stored tag are simple (lowercase-ASCII letters, digits, hyphens): the
LIKE pattern then has no wildcard or case surprises. -/
theorem tagClause_iff (t : String) (l : List String) (r : ItemRecord)
    (hr : r.tags = some (serializeTags l))
    (ht : simpleTag t = true)
    (hl : ∀ x ∈ l, simpleTag x = true) :
    (tagClause t r = true ↔ t ∈ l) := by
  unfold tagClause
  rw [hr]
  show likeMatch (tagLikePattern t) (serializeTags l).toList = true ↔ t ∈ l
  have hts : ∀ c ∈ t.toList, simpleTagChar c = true := by
    unfold simpleTag at ht
    rw [Bool.and_eq_true] at ht
    exact fun c hc => List.all_eq_true.mp ht.2 c hc
  have htne : t.toList ≠ [] := by
    intro h0
    unfold simpleTag at ht
    rw [Bool.and_eq_true, decide_eq_true_eq] at ht
    exact ht.1 (String.ext h0)
  have hser : (serializeTags l).toList = '[' :: serTagsInner l ++ [']'] := rfl
  rw [hser]
  have hpat : tagLikePattern t = '%' :: (('"' :: t.toList ++ ['"']) ++ ['%']) := by
    simp [tagLikePattern]
  rw [hpat]
  have hmw : '%' ∉ ('"' :: t.toList ++ ['"']) ∧ '_' ∉ ('"' :: t.toList ++ ['"']) := by
    constructor <;>
      · intro hmem
        rcases List.mem_cons.mp hmem with h0 | h1
        · exact absurd h0.symm (by decide)
        · rcases List.mem_append.mp h1 with h2 | h3
          · first
            | exact (simpleTagChar_ne (hts _ h2)).1 rfl
            | exact (simpleTagChar_ne (hts _ h2)).2.1 rfl
          · simp at h3
  rw [likeContains _ hmw]
  have hmfix : ∀ c ∈ ('"' :: t.toList ++ ['"']), likeFold c = c := by
    intro c hc
    rcases List.mem_cons.mp hc with rfl | h1
    · decide
    · rcases List.mem_append.mp h1 with h2 | h3
      · exact simpleTagChar_fold (hts c h2)
      · simp at h3
        rw [h3]
        decide
  have hsfix : ∀ c ∈ ('[' :: serTagsInner l ++ [']']), likeFold c = c := by
    intro c hc
    rcases List.mem_cons.mp hc with rfl | h1
    · decide
    · rcases List.mem_append.mp h1 with h2 | h3
      · exact serTagsInner_fold hl c h2
      · simp at h3
        rw [h3]
        decide
  constructor
  · rintro ⟨s1, s2, s3, heq, hmap⟩
    have hs2fix : s2.map likeFold = s2 := by
      calc s2.map likeFold
          = s2.map id := List.map_congr_left (fun c hc => hsfix c (by
              rw [heq]
              exact List.mem_append.mpr (Or.inl (List.mem_append.mpr (Or.inr hc)))))
        _ = s2 := List.map_id _
    have hmfix' : ('"' :: t.toList ++ ['"']).map likeFold = '"' :: t.toList ++ ['"'] := by
      calc ('"' :: t.toList ++ ['"']).map likeFold
          = ('"' :: t.toList ++ ['"']).map id := List.map_congr_left hmfix
        _ = _ := List.map_id _
    rw [hs2fix, hmfix'] at hmap
    subst hmap
    have hinfix : ('"' :: t.toList ++ ['"']) <:+: '[' :: serTagsInner l ++ [']'] :=
      ⟨s1, s3, heq.symm⟩
    have h2 : ('"' :: t.toList ++ ['"']) <:+: serTagsInner l ++ [']'] := by
      rcases List.infix_cons_iff.mp hinfix with hpre | hinf
      · exact absurd (List.cons_prefix_cons.mp hpre).1 (by decide)
      · exact hinf
    have h3 : ('"' :: t.toList ++ ['"']) <:+: serTagsInner l :=
      (infix_strip_last ⟨t.toList.reverse ++ ['"'], by simp⟩).mp h2
    obtain ⟨x, hx, hxt⟩ := (quoted_infix_serInner t.toList htne hts l hl).mp h3
    have : x = t := String.ext hxt
    exact this ▸ hx
  · intro htl
    have h3 : ('"' :: t.toList ++ ['"']) <:+: serTagsInner l :=
      (quoted_infix_serInner t.toList htne hts l hl).mpr ⟨t, htl, rfl⟩
    obtain ⟨pre, post, hpp⟩ := h3
    exact ⟨'[' :: pre, '"' :: t.toList ++ ['"'], post ++ [']'], by simp [← hpp], rfl⟩

/-- Sample rendered item carrying the serialized tag list `["a"]`. -/
def sampleTaggedItem : ItemRecord :=
  { id := "03", type := "quote", title := some "T", source_url := none,
    attributes := "", tags := some (serializeTags ["a"]), submitted_by := none,
    render_status := "rendered", og_path := none, embed_path := none,
    markdown_path := none, rendered_at := some 2, created_at := 1, updated_at := 2,
    render_failures := 0 }

/-- C10 counterexample: SQLite LIKE compares ASCII case-insensitively, so
`listItems` with tag `"A"` returns an item whose stored tags array is
`["a"]` — an item that does *not* have `"A"` as an element of its tags. -/
theorem listItems_tag_filter_case_insensitive :
    listItems { type := none, limit := none, cursor := none, tag := some "A" }
      [sampleTaggedItem] = [sampleTaggedItem] ∧
    sampleTaggedItem.tags = some (serializeTags ["a"]) ∧
    ("A" ∈ (["a"] : List String) → False) := by decide

/-- C10 amended: for a nonempty searched tag of lowercase ASCII letters,
digits and hyphens, against a store whose tags columns serialize
same-shaped tag lists, the LIKE clause of `listItems` is exactly
membership in the stored tags array: `listItems` returns precisely the
rows passing the other filters whose tags contain the searched tag,
newest first, up to the limit.  (Unrestricted, the claim fails: LIKE
compares ASCII case-insensitively — see the counterexample — and `%`/`_`
in a tag act as wildcards.) -/
theorem listItems_tag_filter_amended (opts : ListItemsOptions) (s : Store)
    (t : String) (tagsOf : ItemRecord → List String)
    (hopt : opts.tag = some t) (ht : simpleTag t = true)
    (hwf : ∀ r ∈ s, r.tags = some (serializeTags (tagsOf r)) ∧
      ∀ x ∈ tagsOf r, simpleTag x = true) :
    listItems opts s =
      (sortByCreatedDesc (s.filter (fun r =>
        listWhere (ListItemsOptions.mk opts.type opts.limit opts.cursor none) s r &&
        decide (t ∈ tagsOf r)))).take (opts.limit.getD 20) := by
  unfold listItems
  have hfil : s.filter (listWhere opts s) =
      s.filter (fun r =>
        listWhere (ListItemsOptions.mk opts.type opts.limit opts.cursor none) s r &&
        decide (t ∈ tagsOf r)) := by
    apply List.filter_congr
    intro r hr
    have htagbool : tagClause t r = decide (t ∈ tagsOf r) := by
      have hiff := tagClause_iff t (tagsOf r) r (hwf r hr).1 ht (hwf r hr).2
      by_cases hm : t ∈ tagsOf r
      · rw [hiff.mpr hm, decide_eq_true hm]
      · rw [decide_eq_false hm, ← Bool.not_eq_true]
        exact fun hc => hm (hiff.mp hc)
    have htne : (t == "") = false := by
      unfold simpleTag at ht
      rw [Bool.and_eq_true, decide_eq_true_eq] at ht
      exact beq_eq_false_iff_ne.mpr ht.1
    unfold listWhere
    rw [hopt]
    simp only [htne, Bool.false_or, htagbool, Bool.and_true]
  rw [hfil]

/-- Witness for `listItems_tag_filter_amended` at a concrete one-row
store: searching the simple tag `a` returns exactly the item tagged
`["a"]`. -/
theorem listItems_tag_filter_amended_witness :
    listItems { type := none, limit := none, cursor := none, tag := some "a" }
      [sampleTaggedItem] = [sampleTaggedItem] :=
  (listItems_tag_filter_amended
    { type := none, limit := none, cursor := none, tag := some "a" }
    [sampleTaggedItem] "a" (fun _ => ["a"]) rfl (by decide) (by decide)).trans
    (by decide)

end Quuote
